import Mathlib

/-!
Verification of the credential-process caching utility (`main.go`).

The development shallowly embeds the program's pure algorithms (cache-key
derivation, JSON serialization of the cache item, expiration timestamp
formatting/parsing) and its effectful cache protocol (`CLICache.Load`,
`CLICache.get`, `CLICache.save`) as Lean functions over an explicit
filesystem state.  Machine integers are modelled as `Nat`/`Int` with
explicit reduction modulo `2^32`/`2^64` where Go overflow semantics
matter (SHA-1).
-/

namespace AwsCredProc

/-! ## SHA-1 (model of Go `crypto/sha1` over byte lists, 32-bit words as `Nat`) -/

/-- Truncate to a 32-bit word. -/
def w32 (n : Nat) : Nat := n % 4294967296

/-- Rotate a 32-bit word left by `k` bits (`0 < k < 32`, argument below `2^32`). -/
def rotl (k n : Nat) : Nat := (n % 2 ^ (32 - k)) * 2 ^ k + n / 2 ^ (32 - k)

/-- SHA-1 round function `f_i`. -/
def sha1F (i b c d : Nat) : Nat :=
  if i < 20 then (b &&& c) ||| ((b ^^^ 4294967295) &&& d)
  else if i < 40 then b ^^^ c ^^^ d
  else if i < 60 then (b &&& c) ||| (b &&& d) ||| (c &&& d)
  else b ^^^ c ^^^ d

/-- SHA-1 round constant `K_i`. -/
def sha1K (i : Nat) : Nat :=
  if i < 20 then 1518500249
  else if i < 40 then 1859775393
  else if i < 60 then 2400959708
  else 3395469782

/-- Big-endian bytes (most significant first) of `n`, `k` bytes wide. -/
def natToBytesBE : Nat → Nat → List Nat
  | 0, _ => []
  | k + 1, n => natToBytesBE k (n / 256) ++ [n % 256]

/-- Group a byte list into big-endian 32-bit words (trailing partial group dropped;
inputs are always a multiple of 4 bytes). -/
def bytesToWords : List Nat → List Nat
  | b0 :: b1 :: b2 :: b3 :: rest =>
      (b0 * 16777216 + b1 * 65536 + b2 * 256 + b3) :: bytesToWords rest
  | _ => []

/-- Extend the 16-word message schedule by `k` further words
(`W[i] = rotl 1 (W[i-3] ^^^ W[i-8] ^^^ W[i-14] ^^^ W[i-16])`). -/
def extendW (w : List Nat) : Nat → List Nat
  | 0 => w
  | k + 1 =>
      let n := w.length
      extendW (w ++ [rotl 1 ((w.getD (n - 3) 0 ^^^ w.getD (n - 8) 0) ^^^
        (w.getD (n - 14) 0 ^^^ w.getD (n - 16) 0))]) k

/-- One SHA-1 compression round: state is `(i, a, b, c, d, e)`. -/
def sha1Step (st : Nat × Nat × Nat × Nat × Nat × Nat) (x : Nat) :
    Nat × Nat × Nat × Nat × Nat × Nat :=
  match st with
  | (i, a, b, c, d, e) =>
      (i + 1, w32 (rotl 5 a + sha1F i b c d + e + sha1K i + x), a, rotl 30 b, c, d)

/-- Process one 64-byte block, updating the five-word chaining state. -/
def sha1Block (h : Nat × Nat × Nat × Nat × Nat) (block : List Nat) :
    Nat × Nat × Nat × Nat × Nat :=
  match h with
  | (h0, h1, h2, h3, h4) =>
      let w := extendW (bytesToWords block) 64
      match w.foldl sha1Step (0, h0, h1, h2, h3, h4) with
      | (_, a, b, c, d, e) =>
          (w32 (h0 + a), w32 (h1 + b), w32 (h2 + c), w32 (h3 + d), w32 (h4 + e))

/-- Split a byte list into 64-byte blocks (structural recursion on a fuel
bound so the definition reduces in the kernel). -/
def chunks64Aux : Nat → List Nat → List (List Nat)
  | 0, _ => []
  | _, [] => []
  | fuel + 1, c :: rest => ((c :: rest).take 64) :: chunks64Aux fuel ((c :: rest).drop 64)

/-- Split a byte list into 64-byte blocks. -/
def chunks64 (l : List Nat) : List (List Nat) := chunks64Aux l.length l

/-- SHA-1 padding: append `0x80`, zeros to 56 mod 64, then the 64-bit
big-endian bit length. -/
def sha1Pad (msg : List Nat) : List Nat :=
  let l := msg.length
  let z := (64 + 56 - (l + 1) % 64) % 64
  msg ++ 128 :: List.replicate z 0 ++ natToBytesBE 8 (8 * l % 18446744073709551616)

/-- The 20-byte SHA-1 digest of a byte list. -/
def sha1Bytes (msg : List Nat) : List Nat :=
  match (chunks64 (sha1Pad msg)).foldl sha1Block
      (1732584193, 4023233417, 2562383102, 271733878, 3285377520) with
  | (h0, h1, h2, h3, h4) =>
      natToBytesBE 4 h0 ++ natToBytesBE 4 h1 ++ natToBytesBE 4 h2 ++
        natToBytesBE 4 h3 ++ natToBytesBE 4 h4

/-- Lowercase hexadecimal digit for `n < 16`. -/
def hexDigit (n : Nat) : Char :=
  if n < 10 then Char.ofNat (48 + n) else Char.ofNat (87 + n)

/-- Lowercase hex string of a byte list (model of Go `hex.EncodeToString`,
which already emits lowercase, so `strings.ToLower` is the identity on it). -/
def hexEncode (bytes : List Nat) : String :=
  ⟨bytes.foldr (fun b acc => hexDigit (b / 16) :: hexDigit (b % 16) :: acc) []⟩

/-- UTF-8 bytes of one character. -/
def utf8EncodeChar (c : Char) : List Nat :=
  let n := c.toNat
  if n < 128 then [n]
  else if n < 2048 then [192 + n / 64, 128 + n % 64]
  else if n < 65536 then [224 + n / 4096, 128 + n / 64 % 64, 128 + n % 64]
  else [240 + n / 262144, 128 + n / 4096 % 64, 128 + n / 64 % 64, 128 + n % 64]

/-- UTF-8 bytes of a string (Go strings are byte slices; `[]byte(s)`). -/
def strBytes (s : String) : List Nat :=
  s.data.foldr (fun c acc => utf8EncodeChar c ++ acc) []

/-- Lowercase hex SHA-1 digest of a string's UTF-8 bytes. -/
def sha1Hex (s : String) : String := hexEncode (sha1Bytes (strBytes s))

/-! ## Cache key derivation (`computableCacheKey`, `main.go:178-204`) -/

/-- Decimal digit character. -/
def digitChar (n : Nat) : Char := Char.ofNat (48 + n)

/-- Decimal digits of `n` (fuel-based so it reduces in the kernel). -/
def natCharsAux : Nat → Nat → List Char
  | 0, _ => []
  | fuel + 1, n => if n < 10 then [digitChar n] else natCharsAux fuel (n / 10) ++ [digitChar (n % 10)]

/-- Decimal digits of a natural number. -/
def natChars (n : Nat) : List Char := natCharsAux (n + 1) n

/-- Base-10 rendering of an integer (model of Go's `int` JSON encoding). -/
def intChars (i : Int) : List Char :=
  if i < 0 then '-' :: natChars (-i).toNat else natChars i.toNat

/-- One character of Go `encoding/json` string escaping (the default
HTML-escaping encoder): `\"`, `\\`, `\n`, `\r`, `\t`, `\u00XX` for other
control characters and for `<`, `>`, `&`, ` `/` ` for the two
Unicode line separators, everything else literal. -/
def goEscapeChar (c : Char) : List Char :=
  let n := c.toNat
  if n < 128 then
    if c = '"' then ['\\', '"']
    else if c = '\\' then ['\\', '\\']
    else if c = '<' ∨ c = '>' ∨ c = '&' then
      ['\\', 'u', '0', '0', hexDigit (n / 16), hexDigit (n % 16)]
    else if n < 32 then
      if c = '\n' then ['\\', 'n']
      else if c = '\r' then ['\\', 'r']
      else if c = '\t' then ['\\', 't']
      else ['\\', 'u', '0', '0', hexDigit (n / 16), hexDigit (n % 16)]
    else [c]
  else if n = 8232 then ['\\', 'u', '2', '0', '2', '8']
  else if n = 8233 then ['\\', 'u', '2', '0', '2', '9']
  else [c]

/-- Go JSON escaping of a whole string (no surrounding quotes). -/
def goEscape (s : List Char) : List Char :=
  s.foldr (fun c acc => goEscapeChar c ++ acc) []

/-- A JSON string literal: quotes around the escaped content. -/
def jsonStr (s : List Char) : List Char := '"' :: goEscape s ++ ['"']

/-- The assume-role parameters hashed into the cache key (`main.go:178-183`).
Go struct field order: `DurationSeconds`, `ExternalId`, `RoleArn`,
`SerialNumber`, each tagged `json:",omitempty"`. -/
structure computableCacheKey where
  DurationSeconds : Int
  ExternalId : String
  RoleArn : String
  SerialNumber : String
deriving DecidableEq

/-- One JSON object member: quoted field name, colon, encoded value. -/
def fieldCompact (nv : List Char × List Char) : List Char :=
  ('"' :: nv.1) ++ '"' :: ':' :: nv.2

/-- Join object members with a separator (no trailing separator). -/
def fieldsConcat (sep : List Char) : List (List Char) → List Char
  | [] => []
  | [f] => f
  | f :: g :: fs => f ++ (sep ++ fieldsConcat sep (g :: fs))

/-- The compact field strings `json.Marshal` emits for `computableCacheKey`:
declaration order, zero/empty values omitted (`omitempty`). -/
def keyFields (v : computableCacheKey) : List (List Char) :=
  (if v.DurationSeconds ≠ 0 then
    [fieldCompact ("DurationSeconds".data, intChars v.DurationSeconds)] else []) ++
  (if v.ExternalId ≠ "" then
    [fieldCompact ("ExternalId".data, jsonStr v.ExternalId.data)] else []) ++
  (if v.RoleArn ≠ "" then
    [fieldCompact ("RoleArn".data, jsonStr v.RoleArn.data)] else []) ++
  (if v.SerialNumber ≠ "" then
    [fieldCompact ("SerialNumber".data, jsonStr v.SerialNumber.data)] else [])

/-- Model of `json.Marshal` on `computableCacheKey`: compact object, fixed
field order, `omitempty` fields dropped, members joined by `,`. -/
def jsonMarshalKey (v : computableCacheKey) : List Char :=
  '{' :: (fieldsConcat [','] (keyFields v) ++ ['}'])

/-- Model of Go `strings.Replace(s, old, new, -1)` specialized to a
two-character `old = [p, q]`: leftmost, non-overlapping matches, each
replaced by `new`. -/
def repl2 (p q : Char) (new : List Char) : List Char → List Char
  | [] => []
  | [c] => [c]
  | c :: d :: rest =>
      if c = p ∧ d = q then new ++ repl2 p q new rest
      else c :: repl2 p q new (d :: rest)

/-- ASCII lowercasing of one character (model of `strings.ToLower` on the
ASCII-only hex string it is applied to). -/
def asciiToLower (c : Char) : Char :=
  if 65 ≤ c.toNat ∧ c.toNat ≤ 90 then Char.ofNat (c.toNat + 32) else c

/-- Model of `computableCacheKey.String` (`main.go:189-204`): marshal to
compact JSON, textually replace `":` by `": ` and `,"` by `, "`, SHA-1 the
bytes, hex-encode, lowercase. -/
def cacheKeyString (v : computableCacheKey) : String :=
  let blob := jsonMarshalKey v
  let blob := repl2 '"' ':' ['"', ':', ' '] blob
  let blob := repl2 ',' '"' [',', ' ', '"'] blob
  ⟨(hexEncode (sha1Bytes (blob.foldr (fun c acc => utf8EncodeChar c ++ acc) []))).data.map
    asciiToLower⟩

/-- One spec-side member: a single space follows the key-value colon. -/
def fieldSpaced (nv : List Char × List Char) : List Char :=
  ('"' :: nv.1) ++ '"' :: ':' :: ' ' :: nv.2

/-- Written from the spec's words: the pretty-printed JSON object with, in
fixed order, exactly the non-zero/non-empty fields, a single space after
each key-value colon and after each comma separating fields, and no other
whitespace. -/
def specPrettyFields (v : computableCacheKey) : List (List Char) :=
  (if v.DurationSeconds ≠ 0 then
    [fieldSpaced ("DurationSeconds".data, intChars v.DurationSeconds)] else []) ++
  (if v.ExternalId ≠ "" then
    [fieldSpaced ("ExternalId".data, jsonStr v.ExternalId.data)] else []) ++
  (if v.RoleArn ≠ "" then
    [fieldSpaced ("RoleArn".data, jsonStr v.RoleArn.data)] else []) ++
  (if v.SerialNumber ≠ "" then
    [fieldSpaced ("SerialNumber".data, jsonStr v.SerialNumber.data)] else [])

/-- Written from the spec's words: the rewritten compact JSON document the
spec says is hashed. -/
def specPrettyJson (v : computableCacheKey) : String :=
  ⟨'{' :: (fieldsConcat [',', ' '] (specPrettyFields v) ++ ['}'])⟩

/-! ## Timestamps (`ExpireTime`, `main.go:217-232`)

A UTC instant is modelled by its wall-clock fields, the representation the
serialization format works with.  Go's `time.Time` additionally carries
nanoseconds, so the model keeps an `nsec` field; the layout
`"2006-01-02T15:04:05+00:00"` renders seconds only, and its `+00:00` part
is a literal (Go layout offsets start with `-` or `Z`), so parsing yields a
UTC time with `nsec = 0`. -/

structure DateTime where
  year : Nat
  month : Nat
  day : Nat
  hour : Nat
  minute : Nat
  sec : Nat
  nsec : Nat
deriving DecidableEq

/-- Total order key for instants: lexicographic on the calendar fields
(agrees with Go's instant comparison on well-formed UTC values). -/
def DateTime.key (t : DateTime) : Nat :=
  (((((t.year * 13 + t.month) * 32 + t.day) * 24 + t.hour) * 60 + t.minute) * 60 + t.sec)
    * 1000000000 + t.nsec

/-- Model of Go `a.After(b)`. -/
def DateTime.after (a b : DateTime) : Bool := b.key < a.key

/-- Go's zero `time.Time`: January 1, year 1, 00:00:00 UTC. -/
def zeroTime : DateTime := ⟨1, 1, 1, 0, 0, 0, 0⟩

/-- Two final digits, zero-padded. -/
def pad2 (n : Nat) : List Char := [digitChar (n / 10 % 10), digitChar (n % 10)]

/-- The year as Go's `2006` verb renders it: zero-padded to four digits,
full decimal expansion beyond 9999. -/
def formatYear (y : Nat) : List Char :=
  if y ≤ 9999 then
    [digitChar (y / 1000 % 10), digitChar (y / 100 % 10), digitChar (y / 10 % 10),
      digitChar (y % 10)]
  else natChars y

/-- Model of `time.Time.Format("2006-01-02T15:04:05+00:00")` on a UTC value:
wall-clock fields to the second, then the literal `+00:00` suffix. -/
def formatDateTime (t : DateTime) : List Char :=
  formatYear t.year ++ '-' :: pad2 t.month ++ '-' :: pad2 t.day ++
    'T' :: pad2 t.hour ++ ':' :: pad2 t.minute ++ ':' :: pad2 t.sec ++ "+00:00".data

/-- Numeric value of a decimal digit character. -/
def digitVal (c : Char) : Option Nat :=
  if 48 ≤ c.toNat ∧ c.toNat ≤ 57 then some (c.toNat - 48) else none

/-- Read exactly two decimal digits. -/
def parse2 : List Char → Option (Nat × List Char)
  | a :: b :: rest =>
      match digitVal a, digitVal b with
      | some da, some db => some (10 * da + db, rest)
      | _, _ => none
  | _ => none

/-- Read exactly four decimal digits. -/
def parse4 : List Char → Option (Nat × List Char)
  | a :: b :: c :: d :: rest =>
      match digitVal a, digitVal b, digitVal c, digitVal d with
      | some da, some db, some dc, some dd => some (1000 * da + 100 * db + 10 * dc + dd, rest)
      | _, _, _, _ => none
  | _ => none

/-- Match a literal prefix, returning the remainder. -/
def stripLit : List Char → List Char → Option (List Char)
  | [], l => some l
  | _, [] => none
  | p :: ps, c :: cs => if c = p then stripLit ps cs else none

/-- Whether `year` is a Gregorian leap year. -/
def isLeap (y : Nat) : Bool := y % 4 = 0 ∧ (y % 100 ≠ 0 ∨ y % 400 = 0)

/-- Days in a month. -/
def daysInMonth (y m : Nat) : Nat :=
  if m = 2 then (if isLeap y then 29 else 28)
  else if m = 4 ∨ m = 6 ∨ m = 9 ∨ m = 11 then 30
  else 31

/-- Go's post-parse range validation for the layout's fields. -/
def fieldsValid (y mo d h mi s : Nat) : Bool :=
  1 ≤ mo ∧ mo ≤ 12 ∧ 1 ≤ d ∧ d ≤ daysInMonth y mo ∧ h ≤ 23 ∧ mi ≤ 59 ∧ s ≤ 59

/-- Assemble the parse result once all fields and the remainder are known. -/
def mkParsedDateTime (y mo d h mi s : Nat) (rest : List Char) : Option DateTime :=
  if rest = [] then
    if fieldsValid y mo d h mi s then some ⟨y, mo, d, h, mi, s, 0⟩ else none
  else none

/-- Model of `time.Parse("2006-01-02T15:04:05+00:00", v)`: fixed-width
numeric fields, literal separators (including the literal `+00:00`), range
validation as Go performs it, no trailing input; the result is a UTC
instant with zero nanoseconds. -/
def parseDateTime (l : List Char) : Option DateTime :=
  (parse4 l).bind fun py =>
  (stripLit ['-'] py.2).bind fun l1 =>
  (parse2 l1).bind fun pmo =>
  (stripLit ['-'] pmo.2).bind fun l2 =>
  (parse2 l2).bind fun pd =>
  (stripLit ['T'] pd.2).bind fun l3 =>
  (parse2 l3).bind fun ph =>
  (stripLit [':'] ph.2).bind fun l4 =>
  (parse2 l4).bind fun pmi =>
  (stripLit [':'] pmi.2).bind fun l5 =>
  (parse2 l5).bind fun ps =>
  (stripLit "+00:00".data ps.2).bind fun l6 =>
  mkParsedDateTime py.1 pmo.1 pd.1 ph.1 pmi.1 ps.1 l6

/-- Model of `ExpireTime.MarshalJSON` (`main.go:219-222`): JSON-encode the
formatted timestamp string. -/
def expireTimeMarshal (t : DateTime) : List Char := jsonStr (formatDateTime t)

/-- Strip every leading and trailing `"` (model of ``strings.Trim(s, `"`)``). -/
def trimQuotes (l : List Char) : List Char :=
  ((l.dropWhile (· = '"')).reverse.dropWhile (· = '"')).reverse

/-- Model of `ExpireTime.UnmarshalJSON` (`main.go:224-232`): trim quotes
from the raw JSON token, then parse with the same layout. -/
def expireTimeUnmarshal (data : List Char) : Option DateTime :=
  parseDateTime (trimQuotes data)

/-! ## Credentials and the cache file document (`main.go:206-215`) -/

/-- Model of `aws.Credentials` (the fields this program reads and writes). -/
structure Credentials where
  accessKeyId : String
  secretAccessKey : String
  sessionToken : String
  expires : DateTime
  canExpire : Bool
deriving DecidableEq

/-- Model of `aws.Credentials.Expired` from the AWS SDK (external
collaborator): a credential with `CanExpire` set is expired exactly when
its expiration is not strictly after the current time. -/
def credExpired (c : Credentials) (now : DateTime) : Bool :=
  c.canExpire ∧ ¬c.expires.after now

structure CachedCredentials where
  AccessKeyId : String
  SecretAccessKey : String
  SessionToken : String
  Expiration : DateTime
deriving DecidableEq

structure CLICompatCacheItem where
  Credentials : CachedCredentials
deriving DecidableEq

/-- Model of `json.Marshal` on `CLICompatCacheItem`: the canonical compact
document `{"Credentials":{"AccessKeyId":...,...,"Expiration":"..."}}`. -/
def marshalCacheItem (item : CLICompatCacheItem) : List Char :=
  "\x7b\"Credentials\":\x7b\"AccessKeyId\":".data ++ (jsonStr item.Credentials.AccessKeyId.data ++
  (",\"SecretAccessKey\":".data ++ (jsonStr item.Credentials.SecretAccessKey.data ++
  (",\"SessionToken\":".data ++ (jsonStr item.Credentials.SessionToken.data ++
  (",\"Expiration\":".data ++ (expireTimeMarshal item.Credentials.Expiration ++
  "\x7d\x7d".data)))))))

/-- Numeric value of a hexadecimal digit character. -/
def hexVal (c : Char) : Option Nat :=
  if 48 ≤ c.toNat ∧ c.toNat ≤ 57 then some (c.toNat - 48)
  else if 97 ≤ c.toNat ∧ c.toNat ≤ 102 then some (c.toNat - 87)
  else if 65 ≤ c.toNat ∧ c.toNat ≤ 70 then some (c.toNat - 55)
  else none

/-- Unescape and consume a JSON string body up to its closing quote,
returning the decoded content and the remainder. -/
def parseStrBody : List Char → Option (List Char × List Char)
  | [] => none
  | c :: rest =>
      if c = '"' then some ([], rest)
      else if c = '\\' then
        match rest with
        | 'n' :: r => (fun p => ('\n' :: p.1, p.2)) <$> parseStrBody r
        | 'r' :: r => (fun p => ('\r' :: p.1, p.2)) <$> parseStrBody r
        | 't' :: r => (fun p => ('\t' :: p.1, p.2)) <$> parseStrBody r
        | '"' :: r => (fun p => ('"' :: p.1, p.2)) <$> parseStrBody r
        | '\\' :: r => (fun p => ('\\' :: p.1, p.2)) <$> parseStrBody r
        | 'u' :: h1 :: h2 :: h3 :: h4 :: r =>
            match hexVal h1, hexVal h2, hexVal h3, hexVal h4 with
            | some a, some b, some x, some y =>
                (fun p => (Char.ofNat (4096 * a + 256 * b + 16 * x + y) :: p.1, p.2)) <$>
                  parseStrBody r
            | _, _, _, _ => none
        | _ => none
      else (fun p => (c :: p.1, p.2)) <$> parseStrBody rest

/-- Parse a JSON string literal (opening quote, body, closing quote). -/
def parseJsonString (l : List Char) : Option (List Char × List Char) :=
  match l with
  | [] => none
  | c :: rest => if c = '"' then parseStrBody rest else none

/-- Scan a quote-delimited raw token (no escapes inside, the shape of every
serialized `Expiration` value), returning the token with its quotes. -/
def parseRawStringAux : List Char → Option (List Char × List Char)
  | [] => none
  | c :: rest =>
      if c = '"' then some (['"'], rest)
      else (fun p => (c :: p.1, p.2)) <$> parseRawStringAux rest

/-- The raw bytes of a leading JSON string token (quotes included), as
`encoding/json` hands them to `ExpireTime.UnmarshalJSON`. -/
def parseRawString (l : List Char) : Option (List Char × List Char) :=
  match l with
  | [] => none
  | c :: rest => if c = '"' then (fun p => ('"' :: p.1, p.2)) <$> parseRawStringAux rest else none

/-- Model of `json.Unmarshal` into `CLICompatCacheItem`, restricted to the
canonical document shape `json.Marshal` emits for it (the shape this
program itself writes); any other input is rejected as malformed. -/
def unmarshalCacheItem (l : List Char) : Option CLICompatCacheItem :=
  (stripLit "\x7b\"Credentials\":\x7b\"AccessKeyId\":".data l).bind fun l1 =>
  (parseJsonString l1).bind fun pak =>
  (stripLit ",\"SecretAccessKey\":".data pak.2).bind fun l2 =>
  (parseJsonString l2).bind fun psk =>
  (stripLit ",\"SessionToken\":".data psk.2).bind fun l3 =>
  (parseJsonString l3).bind fun pst =>
  (stripLit ",\"Expiration\":".data pst.2).bind fun l4 =>
  (parseRawString l4).bind fun ptok =>
  (expireTimeUnmarshal ptok.1).bind fun exp =>
  (stripLit "\x7d\x7d".data ptok.2).bind fun l5 =>
  if l5 = [] then some ⟨⟨⟨pak.1⟩, ⟨psk.1⟩, ⟨pst.1⟩, exp⟩⟩ else none

/-! ## The cache store (`CLICache`, `main.go:60-176`) and orchestration

The filesystem is the single cache-file path the program touches: the
cache directory `~/.aws/cli/cache` (which is `filepath.Dir` of the cache
file path) and the file `<cachekey>.json` inside it.  A file carries a
readability flag (absent/unreadable/content are the read outcomes the code
distinguishes) and its byte content. -/

structure CacheFileState where
  readable : Bool
  content : String
deriving DecidableEq

structure FS where
  dirExists : Bool
  file : Option CacheFileState
deriving DecidableEq

/-- Model of `CLICache.get` (`main.go:119-145`): start from zero credentials
with `CanExpire = true`; fail if the file is absent, unreadable, or its
JSON does not decode; otherwise copy the four cached fields. -/
def CLICache.get (fs : FS) : Credentials × Option String :=
  let creds : Credentials := ⟨"", "", "", zeroTime, true⟩
  match fs.file with
  | none => (creds, some "cache file does not exist")
  | some f =>
      if f.readable then
        match unmarshalCacheItem f.content.data with
        | none => (creds, some "failed to decode cache json")
        | some v =>
            ({ creds with
                accessKeyId := v.Credentials.AccessKeyId
                secretAccessKey := v.Credentials.SecretAccessKey
                sessionToken := v.Credentials.SessionToken
                expires := v.Credentials.Expiration }, none)
      else (creds, some "failed to read cache file")

structure SaveResult where
  error : Option String
  fs : FS
  mkdirCalled : Bool
  writeCalled : Bool
deriving DecidableEq

/-- The cache item `CLICache.save` builds from credentials (`main.go:157-164`). -/
def itemOfCreds (creds : Credentials) : CLICompatCacheItem :=
  ⟨⟨creds.accessKeyId, creds.secretAccessKey, creds.sessionToken, creds.expires⟩⟩

/-- Model of `CLICache.save` (`main.go:147-176`): call `os.MkdirAll` on the
cache directory only when that directory already exists (where it is a
successful no-op); `json.Marshal` cannot fail on this item type; then
`os.WriteFile`, which fails exactly when the parent directory is absent
(the filesystem failure mode the model includes) and otherwise replaces
the file with the marshalled document, mode 0600. -/
def CLICache.save (creds : Credentials) (fs : FS) : SaveResult :=
  let mkdirCalled := fs.dirExists
  let data := marshalCacheItem (itemOfCreds creds)
  if fs.dirExists then
    ⟨none, { fs with file := some ⟨true, ⟨data⟩⟩ }, mkdirCalled, true⟩
  else
    ⟨some "failed to write cache file", fs, mkdirCalled, true⟩

structure LoadResult where
  creds : Credentials
  error : Option String
  fs : FS
  getCalled : Bool
  providerCalled : Bool
  saveCalled : Bool
deriving DecidableEq

/-- The fresh-retrieval tail of `CLICache.Load` (`main.go:105-116`): call the
provider; on provider error return it; otherwise save and return the fresh
credentials together with the save error, if any. -/
def retrieveAndSave (provider : Credentials × Option String) (fs : FS) (getCalled : Bool) :
    LoadResult :=
  match provider with
  | (creds, some e) => ⟨creds, some e, fs, getCalled, true, false⟩
  | (creds, none) =>
      let s := CLICache.save creds fs
      ⟨creds, s.error, s.fs, getCalled, true, true⟩

/-- Model of `CLICache.Load` (`main.go:96-117`): unless a refresh is forced,
try the cache; a cached read with no error and unexpired credentials is
returned as-is; otherwise fall through to fresh retrieval. -/
def CLICache.Load (forceRefresh : Bool) (provider : Credentials × Option String)
    (now : DateTime) (fs : FS) : LoadResult :=
  if ¬forceRefresh then
    let (creds, err) := CLICache.get fs
    if err = none ∧ ¬credExpired creds now then ⟨creds, err, fs, true, false, false⟩
    else retrieveAndSave provider fs true
  else retrieveAndSave provider fs false

/-- Model of the loader selection in `main` (`main.go:359-365`): with
`-no-cache` the loader is the provider itself (no cache object, no file
access); otherwise it is `CLICache.Load` with the force-refresh flag. -/
def acquire (noCache forceRefresh : Bool) (provider : Credentials × Option String)
    (now : DateTime) (fs : FS) : LoadResult :=
  if noCache then ⟨provider.1, provider.2, fs, false, true, false⟩
  else CLICache.Load forceRefresh provider now fs

/-- Model of the duration guard in `main` (`main.go:319-324`); durations are
Go `time.Duration` values, i.e. nanosecond counts. -/
def durationValid (d : Int) : Bool :=
  15 * 60 * 1000000000 ≤ d ∧ d ≤ 12 * 3600 * 1000000000

/-- Model of `main`'s prefix: the duration guard runs before any
configuration, cache, or provider access; an invalid duration terminates
with the fatal message and nothing else happens. -/
def mainRun (d : Int) (noCache forceRefresh : Bool)
    (provider : Credentials × Option String) (now : DateTime) (fs : FS) :
    Except String LoadResult :=
  if ¬durationValid d then Except.error "duration must be between 15 minutes and 12 hours"
  else Except.ok (acquire noCache forceRefresh provider now fs)

/-! ## Roundtrip lemmas for the serialized forms -/

theorem stripLit_append (p rest : List Char) : stripLit p (p ++ rest) = some rest := by
  induction p with
  | nil => simp [stripLit]
  | cons c cs ih => simp [stripLit, ih]

theorem digitVal_digitChar : ∀ k < 10, digitVal (digitChar k) = some k := by decide

theorem hexVal_hexDigit : ∀ k < 16, hexVal (hexDigit k) = some k := by decide

theorem daysInMonth_le (y m : Nat) : daysInMonth y m ≤ 31 := by
  unfold daysInMonth
  split <;> [split <;> norm_num; split <;> norm_num]

theorem parse2_pad2 (n : Nat) (h : n ≤ 99) (rest : List Char) :
    parse2 (digitChar (n / 10 % 10) :: digitChar (n % 10) :: rest) = some (n, rest) := by
  have h1 : n / 10 % 10 < 10 := Nat.mod_lt _ (by norm_num)
  have h2 : n % 10 < 10 := Nat.mod_lt _ (by norm_num)
  simp only [parse2, digitVal_digitChar _ h1, digitVal_digitChar _ h2]
  have : 10 * (n / 10 % 10) + n % 10 = n := by omega
  rw [this]

theorem parse4_digits (y : Nat) (h : y ≤ 9999) (rest : List Char) :
    parse4 (digitChar (y / 1000 % 10) :: digitChar (y / 100 % 10) :: digitChar (y / 10 % 10) ::
      digitChar (y % 10) :: rest) = some (y, rest) := by
  simp only [parse4,
    digitVal_digitChar _ (Nat.mod_lt _ (by norm_num) : y / 1000 % 10 < 10),
    digitVal_digitChar _ (Nat.mod_lt _ (by norm_num) : y / 100 % 10 < 10),
    digitVal_digitChar _ (Nat.mod_lt _ (by norm_num) : y / 10 % 10 < 10),
    digitVal_digitChar _ (Nat.mod_lt _ (by norm_num) : y % 10 < 10)]
  have : 1000 * (y / 1000 % 10) + 100 * (y / 100 % 10) + 10 * (y / 10 % 10) + y % 10 = y := by
    omega
  rw [this]

theorem parseDateTime_format (t : DateTime) (hy : t.year ≤ 9999) (hmo1 : 1 ≤ t.month)
    (hmo : t.month ≤ 12) (hd1 : 1 ≤ t.day) (hd : t.day ≤ daysInMonth t.year t.month)
    (hh : t.hour ≤ 23) (hmi : t.minute ≤ 59) (hs : t.sec ≤ 59) :
    parseDateTime (formatDateTime t) =
      some ⟨t.year, t.month, t.day, t.hour, t.minute, t.sec, 0⟩ := by
  have hfv : fieldsValid t.year t.month t.day t.hour t.minute t.sec = true := by
    simp only [fieldsValid, decide_eq_true_eq]
    exact ⟨hmo1, hmo, hd1, hd, hh, hmi, hs⟩
  have hsuffix : ("+00:00".data : List Char) = ['+', '0', '0', ':', '0', '0'] := rfl
  have hday99 : t.day ≤ 99 := le_trans hd (le_trans (daysInMonth_le _ _) (by norm_num))
  simp [parseDateTime, formatDateTime, formatYear, hy, pad2, parse4_digits _ hy,
    parse2_pad2 _ (show t.month ≤ 99 by omega), parse2_pad2 _ hday99,
    parse2_pad2 _ (show t.hour ≤ 99 by omega), parse2_pad2 _ (show t.minute ≤ 99 by omega),
    parse2_pad2 _ (show t.sec ≤ 99 by omega), stripLit, mkParsedDateTime, hfv, hsuffix]

/-- The characters the timestamp format emits: printable ASCII in `[43, 84]`,
none of `<`, `>`, and in particular neither `"` nor `\`. -/
theorem formatDateTime_chars (t : DateTime) (hy : t.year ≤ 9999) :
    ∀ c ∈ formatDateTime t,
      43 ≤ c.toNat ∧ c.toNat ≤ 84 ∧ c.toNat ≠ 60 ∧ c.toNat ≠ 62 := by
  have hdigit : ∀ k < 10, 43 ≤ (digitChar k).toNat ∧ (digitChar k).toNat ≤ 84 ∧
      (digitChar k).toNat ≠ 60 ∧ (digitChar k).toNat ≠ 62 := by decide
  have hpad : ∀ n, ∀ c ∈ pad2 n,
      43 ≤ c.toNat ∧ c.toNat ≤ 84 ∧ c.toNat ≠ 60 ∧ c.toNat ≠ 62 := by
    intro n c hc
    simp only [pad2, List.mem_cons, List.not_mem_nil, or_false] at hc
    rcases hc with rfl | rfl <;> exact hdigit _ (Nat.mod_lt _ (by norm_num))
  have hyear : ∀ c ∈ formatYear t.year,
      43 ≤ c.toNat ∧ c.toNat ≤ 84 ∧ c.toNat ≠ 60 ∧ c.toNat ≠ 62 := by
    intro c hc
    simp only [formatYear, if_pos hy, List.mem_cons, List.not_mem_nil, or_false] at hc
    rcases hc with rfl | rfl | rfl | rfl <;> exact hdigit _ (Nat.mod_lt _ (by norm_num))
  intro c hc
  simp only [formatDateTime, List.cons_append, List.append_assoc, List.mem_append,
    List.mem_cons] at hc
  rcases hc with h | rfl | h | rfl | h | rfl | h | rfl | h | rfl | h | h
  · exact hyear c h
  · decide
  · exact hpad _ c h
  · decide
  · exact hpad _ c h
  · decide
  · exact hpad _ c h
  · decide
  · exact hpad _ c h
  · decide
  · exact hpad _ c h
  · rcases h with rfl | rfl | rfl | rfl | rfl | rfl | h
    · decide
    · decide
    · decide
    · decide
    · decide
    · decide
    · exact absurd h (List.not_mem_nil c)

theorem goEscapeChar_plain (c : Char) (h1 : 43 ≤ c.toNat) (h2 : c.toNat ≤ 84)
    (h3 : c.toNat ≠ 60) (h4 : c.toNat ≠ 62) : goEscapeChar c = [c] := by
  have hq : c ≠ '"' := fun h => by rw [h] at h1; exact absurd h1 (by decide)
  have hbs : c ≠ '\\' := fun h => by rw [h] at h2; exact absurd h2 (by decide)
  have hlt : c ≠ '<' := fun h => h3 (by rw [h]; rfl)
  have hgt : c ≠ '>' := fun h => h4 (by rw [h]; rfl)
  have hamp : c ≠ '&' := fun h => by rw [h] at h1; exact absurd h1 (by decide)
  simp only [goEscapeChar]
  rw [if_pos (by omega), if_neg hq, if_neg hbs, if_neg (by simp [hlt, hgt, hamp]),
    if_neg (by omega)]

theorem goEscape_id (l : List Char)
    (h : ∀ c ∈ l, 43 ≤ c.toNat ∧ c.toNat ≤ 84 ∧ c.toNat ≠ 60 ∧ c.toNat ≠ 62) :
    goEscape l = l := by
  induction l with
  | nil => rfl
  | cons c cs ih =>
      have hc := h c (List.mem_cons_self c cs)
      show goEscapeChar c ++ goEscape cs = c :: cs
      rw [goEscapeChar_plain c hc.1 hc.2.1 hc.2.2.1 hc.2.2.2,
        ih (fun d hd => h d (List.mem_cons_of_mem c hd))]
      rfl

theorem dropWhile_eq_self_of_head (p : Char → Bool) (l : List Char)
    (h : ∀ c, l.head? = some c → p c = false) : List.dropWhile p l = l := by
  cases l with
  | nil => rfl
  | cons c cs => rw [List.dropWhile_cons, if_neg (by simp [h c rfl])]

theorem trimQuotes_wrap (l : List Char) (hne : l ≠ [])
    (hh : ∀ c, l.head? = some c → c ≠ '"') (hl : ∀ c, l.getLast? = some c → c ≠ '"') :
    trimQuotes ('"' :: l ++ ['"']) = l := by
  have h1 : List.dropWhile (fun x => decide (x = '"')) (l ++ ['"']) = l ++ ['"'] :=
    dropWhile_eq_self_of_head _ _ (fun c hc => by
      rcases l with _ | ⟨d, ds⟩
      · exact absurd rfl hne
      · rw [List.cons_append, List.head?_cons] at hc
        injection hc with h
        subst h
        simpa using hh d rfl)
  have h2 : List.dropWhile (fun x => decide (x = '"')) l.reverse = l.reverse :=
    dropWhile_eq_self_of_head _ _ (fun c hc => by
      rw [List.head?_reverse] at hc
      simpa using hl c hc)
  unfold trimQuotes
  rw [List.cons_append, List.dropWhile_cons, if_pos (by simp), h1]
  rw [show (l ++ ['"']).reverse = '"' :: l.reverse by simp]
  rw [List.dropWhile_cons, if_pos (by simp), h2, List.reverse_reverse]

/-- Parsing a JSON string body undoes one character's Go escaping. -/
theorem parseStrBody_escChar (c : Char) (tail : List Char) :
    parseStrBody (goEscapeChar c ++ tail) = (fun p => (c :: p.1, p.2)) <$> parseStrBody tail := by
  by_cases h128 : c.toNat < 128
  · by_cases hq : c = '"'
    · subst hq
      rw [show goEscapeChar '"' = ['\\', '"'] from rfl, List.cons_append, List.cons_append,
        List.nil_append, parseStrBody.eq_def]
      simp
    · by_cases hbs : c = '\\'
      · subst hbs
        rw [show goEscapeChar '\\' = ['\\', '\\'] from rfl, List.cons_append, List.cons_append,
          List.nil_append, parseStrBody.eq_def]
        simp
      · by_cases hhtml : c = '<' ∨ c = '>' ∨ c = '&'
        · rcases hhtml with rfl | rfl | rfl
          · rw [show goEscapeChar '<' = ['\\', 'u', '0', '0', '3', 'c'] from rfl]
            simp only [List.cons_append, List.nil_append]
            rw [parseStrBody.eq_def]
            simp [show hexVal '0' = some 0 from rfl, show hexVal '3' = some 3 from rfl,
              show hexVal 'c' = some 12 from rfl, show (Char.ofNat 60 : Char) = '<' from rfl]
          · rw [show goEscapeChar '>' = ['\\', 'u', '0', '0', '3', 'e'] from rfl]
            simp only [List.cons_append, List.nil_append]
            rw [parseStrBody.eq_def]
            simp [show hexVal '0' = some 0 from rfl, show hexVal '3' = some 3 from rfl,
              show hexVal 'e' = some 14 from rfl, show (Char.ofNat 62 : Char) = '>' from rfl]
          · rw [show goEscapeChar '&' = ['\\', 'u', '0', '0', '2', '6'] from rfl]
            simp only [List.cons_append, List.nil_append]
            rw [parseStrBody.eq_def]
            simp [show hexVal '0' = some 0 from rfl, show hexVal '2' = some 2 from rfl,
              show hexVal '6' = some 6 from rfl, show (Char.ofNat 38 : Char) = '&' from rfl]
        · by_cases hctl : c.toNat < 32
          · by_cases hn : c = '\n'
            · subst hn
              rw [show goEscapeChar '\n' = ['\\', 'n'] from rfl, List.cons_append,
                List.cons_append, List.nil_append, parseStrBody.eq_def]
              simp
            · by_cases hcr : c = '\r'
              · subst hcr
                rw [show goEscapeChar '\r' = ['\\', 'r'] from rfl, List.cons_append,
                  List.cons_append, List.nil_append, parseStrBody.eq_def]
                simp
              · by_cases ht : c = '\t'
                · subst ht
                  rw [show goEscapeChar '\t' = ['\\', 't'] from rfl, List.cons_append,
                    List.cons_append, List.nil_append, parseStrBody.eq_def]
                  simp
                · have he : goEscapeChar c =
                      ['\\', 'u', '0', '0', hexDigit (c.toNat / 16), hexDigit (c.toNat % 16)] := by
                    simp only [goEscapeChar]
                    rw [if_pos h128, if_neg hq, if_neg hbs,
                      if_neg (by simpa [not_or] using hhtml), if_pos hctl,
                      if_neg hn, if_neg hcr, if_neg ht]
                  rw [he]
                  simp only [List.cons_append, List.nil_append]
                  rw [parseStrBody.eq_def]
                  simp only [show hexVal '0' = some 0 from rfl,
                    hexVal_hexDigit _ (show c.toNat / 16 < 16 by omega),
                    hexVal_hexDigit _ (show c.toNat % 16 < 16 by omega)]
                  simp [show 16 * (c.toNat / 16) + c.toNat % 16 =
                    c.toNat from by omega, Char.ofNat_toNat]
          · have he : goEscapeChar c = [c] := by
              simp only [goEscapeChar]
              rw [if_pos h128, if_neg hq, if_neg hbs,
                if_neg (by simpa [not_or] using hhtml), if_neg hctl]
            rw [he, List.cons_append, List.nil_append, parseStrBody.eq_def]
            simp [hq, hbs]
  · by_cases h2028 : c.toNat = 8232
    · have hc : c = ' ' := by rw [← Char.ofNat_toNat c, h2028]
      subst hc
      rw [show goEscapeChar ' ' = ['\\', 'u', '2', '0', '2', '8'] from rfl]
      simp only [List.cons_append, List.nil_append]
      rw [parseStrBody.eq_def]
      simp [show hexVal '2' = some 2 from rfl, show hexVal '0' = some 0 from rfl,
        show hexVal '8' = some 8 from rfl, show (Char.ofNat 8232 : Char) = ' ' from rfl]
    · by_cases h2029 : c.toNat = 8233
      · have hc : c = ' ' := by rw [← Char.ofNat_toNat c, h2029]
        subst hc
        rw [show goEscapeChar ' ' = ['\\', 'u', '2', '0', '2', '9'] from rfl]
        simp only [List.cons_append, List.nil_append]
        rw [parseStrBody.eq_def]
        simp [show hexVal '2' = some 2 from rfl, show hexVal '0' = some 0 from rfl,
          show hexVal '9' = some 9 from rfl, show (Char.ofNat 8233 : Char) = ' ' from rfl]
      · have hq : c ≠ '"' := fun h => by rw [h] at h128; exact h128 (by decide)
        have hbs : c ≠ '\\' := fun h => by rw [h] at h128; exact h128 (by decide)
        have he : goEscapeChar c = [c] := by
          simp only [goEscapeChar]
          rw [if_neg h128, if_neg h2028, if_neg h2029]
        rw [he, List.cons_append, List.nil_append, parseStrBody.eq_def]
        simp [hq, hbs]

/-- Parsing a JSON string body undoes Go escaping of a whole string. -/
theorem parseStrBody_escape (sl tail : List Char) :
    parseStrBody (goEscape sl ++ '"' :: tail) = some (sl, tail) := by
  induction sl with
  | nil =>
      rw [show goEscape [] = [] from rfl, List.nil_append, parseStrBody.eq_def]
      simp
  | cons c cs ih =>
      rw [show goEscape (c :: cs) = goEscapeChar c ++ goEscape cs from rfl, List.append_assoc,
        parseStrBody_escChar, ih]
      rfl

theorem parseJsonString_jsonStr (sl rest : List Char) :
    parseJsonString (jsonStr sl ++ rest) = some (sl, rest) := by
  have h : jsonStr sl ++ rest = '"' :: (goEscape sl ++ '"' :: rest) := by
    simp [jsonStr]
  rw [h, parseJsonString]
  simp [parseStrBody_escape]

theorem parseRawStringAux_no_quote (l rest : List Char) (h : ∀ c ∈ l, c ≠ '"') :
    parseRawStringAux (l ++ '"' :: rest) = some (l ++ ['"'], rest) := by
  induction l with
  | nil => simp [parseRawStringAux]
  | cons c cs ih =>
      have hc : c ≠ '"' := h c (List.mem_cons_self c cs)
      rw [List.cons_append, parseRawStringAux, if_neg hc,
        ih (fun d hd => h d (List.mem_cons_of_mem c hd))]
      simp

theorem parseRawString_token (l rest : List Char) (h : ∀ c ∈ l, c ≠ '"') :
    parseRawString (('"' :: l ++ ['"']) ++ rest) = some ('"' :: l ++ ['"'], rest) := by
  have heq : ('"' :: l ++ ['"']) ++ rest = '"' :: (l ++ '"' :: rest) := by simp
  rw [heq, parseRawString]
  simp [parseRawStringAux_no_quote l rest h]

theorem formatDateTime_ne_nil (t : DateTime) (hy : t.year ≤ 9999) : formatDateTime t ≠ [] := by
  simp [formatDateTime, formatYear, hy]

theorem formatDateTime_no_quote (t : DateTime) (hy : t.year ≤ 9999) :
    ∀ c ∈ formatDateTime t, c ≠ '"' := by
  intro c hc h
  have h43 := (formatDateTime_chars t hy c hc).1
  rw [h] at h43
  exact absurd h43 (by decide)

/-- The timestamp serialization seen as a raw token: quote, plain text,
quote. -/
theorem expireTimeMarshal_token (t : DateTime) (hy : t.year ≤ 9999) :
    expireTimeMarshal t = '"' :: formatDateTime t ++ ['"'] := by
  simp [expireTimeMarshal, jsonStr, goEscape_id _ (formatDateTime_chars t hy)]

theorem mem_of_head?_eq {α : Type} (l : List α) (c : α) (h : l.head? = some c) : c ∈ l := by
  cases l with
  | nil => exact absurd h (by simp)
  | cons d ds =>
      rw [List.head?_cons] at h
      injection h with h
      rw [← h]
      exact List.mem_cons_self d ds

theorem mem_of_getLast?_eq {α : Type} (l : List α) (c : α) (h : l.getLast? = some c) :
    c ∈ l := by
  induction l with
  | nil => exact absurd h (by simp)
  | cons d ds ih =>
      cases ds with
      | nil =>
          simp only [List.getLast?_singleton] at h
          injection h with h
          rw [← h]
          exact List.mem_cons_self d []
      | cons e es =>
          rw [List.getLast?_cons_cons] at h
          exact List.mem_cons_of_mem d (ih h)

theorem expireTimeUnmarshal_token (t : DateTime) (hy : t.year ≤ 9999) (hmo1 : 1 ≤ t.month)
    (hmo : t.month ≤ 12) (hd1 : 1 ≤ t.day) (hd : t.day ≤ daysInMonth t.year t.month)
    (hh : t.hour ≤ 23) (hmi : t.minute ≤ 59) (hs : t.sec ≤ 59) :
    expireTimeUnmarshal ('"' :: formatDateTime t ++ ['"']) =
      some ⟨t.year, t.month, t.day, t.hour, t.minute, t.sec, 0⟩ := by
  have hh' : ∀ c, (formatDateTime t).head? = some c → c ≠ '"' := fun c hc =>
    formatDateTime_no_quote t hy c (mem_of_head?_eq _ c hc)
  have hl' : ∀ c, (formatDateTime t).getLast? = some c → c ≠ '"' := fun c hc =>
    formatDateTime_no_quote t hy c (mem_of_getLast?_eq _ c hc)
  rw [expireTimeUnmarshal,
    trimQuotes_wrap _ (formatDateTime_ne_nil t hy) hh' hl']
  exact parseDateTime_format t hy hmo1 hmo hd1 hd hh hmi hs

/-- Decoding the canonical cache document returns the stored fields with the
expiration truncated to the second. -/
theorem unmarshalCacheItem_marshal (item : CLICompatCacheItem)
    (hy : item.Credentials.Expiration.year ≤ 9999)
    (hmo1 : 1 ≤ item.Credentials.Expiration.month)
    (hmo : item.Credentials.Expiration.month ≤ 12)
    (hd1 : 1 ≤ item.Credentials.Expiration.day)
    (hd : item.Credentials.Expiration.day ≤
      daysInMonth item.Credentials.Expiration.year item.Credentials.Expiration.month)
    (hh : item.Credentials.Expiration.hour ≤ 23)
    (hmi : item.Credentials.Expiration.minute ≤ 59)
    (hs : item.Credentials.Expiration.sec ≤ 59) :
    unmarshalCacheItem (marshalCacheItem item) =
      some ⟨⟨item.Credentials.AccessKeyId, item.Credentials.SecretAccessKey,
        item.Credentials.SessionToken,
        ⟨item.Credentials.Expiration.year, item.Credentials.Expiration.month,
          item.Credentials.Expiration.day, item.Credentials.Expiration.hour,
          item.Credentials.Expiration.minute, item.Credentials.Expiration.sec, 0⟩⟩⟩ := by
  have hself : stripLit "\x7d\x7d".data "\x7d\x7d".data = some [] := by
    simpa using stripLit_append "\x7d\x7d".data []
  simp only [marshalCacheItem, unmarshalCacheItem,
    expireTimeMarshal_token item.Credentials.Expiration hy, stripLit_append,
    parseJsonString_jsonStr,
    parseRawString_token _ _ (formatDateTime_no_quote item.Credentials.Expiration hy),
    expireTimeUnmarshal_token item.Credentials.Expiration hy hmo1 hmo hd1 hd hh hmi hs,
    Option.some_bind, hself, if_true]

/-! ## The cache-key rewriting: where `strings.Replace` can and cannot match -/

/-- Whether a list starts with `q`. -/
def headIs (q : Char) : List Char → Bool
  | [] => false
  | c :: _ => decide (c = q)

/-- No adjacent occurrence of the two-character pattern `p, q`. -/
def noPair (p q : Char) : List Char → Bool
  | [] => true
  | c :: l => (!(decide (c = p) && headIs q l)) && noPair p q l

theorem headIs_eq_true (q : Char) (l : List Char) : headIs q l = true ↔ l.head? = some q := by
  cases l <;> simp [headIs]

theorem noPair_cons_of_ne (p q c : Char) (l : List Char) (hc : c ≠ p) :
    noPair p q (c :: l) = noPair p q l := by
  simp [noPair, hc]

theorem noPair_cons_iff (p q c : Char) (l : List Char) :
    noPair p q (c :: l) = true ↔ ¬(c = p ∧ l.head? = some q) ∧ noPair p q l = true := by
  simp only [noPair, Bool.and_eq_true, Bool.not_eq_true', Bool.and_eq_false_iff,
    decide_eq_false_iff_not]
  constructor
  · rintro ⟨h1, h2⟩
    refine ⟨?_, h2⟩
    rintro ⟨hc, hh⟩
    rcases h1 with h1 | h1
    · exact h1 hc
    · rw [← headIs_eq_true q l] at hh
      rw [h1] at hh
      cases hh
  · rintro ⟨h1, h2⟩
    refine ⟨?_, h2⟩
    by_cases hc : c = p
    · right
      by_cases hh : headIs q l = true
      · exact absurd ⟨hc, (headIs_eq_true q l).mp hh⟩ h1
      · simpa using hh
    · exact Or.inl hc

theorem noPair_tail (p q c : Char) (l : List Char) (h : noPair p q (c :: l) = true) :
    noPair p q l = true := ((noPair_cons_iff p q c l).mp h).2

theorem noPair_of_not_mem_fst (p q : Char) : ∀ l, p ∉ l → noPair p q l = true
  | [], _ => rfl
  | c :: l, h => by
      have hc : c ≠ p := fun he => h (he ▸ List.mem_cons_self c l)
      rw [noPair_cons_of_ne p q c l hc]
      exact noPair_of_not_mem_fst p q l (fun hm => h (List.mem_cons_of_mem c hm))

theorem noPair_of_not_mem_snd (p q : Char) : ∀ l, q ∉ l → noPair p q l = true
  | [], _ => rfl
  | c :: l, h => by
      rw [noPair_cons_iff]
      refine ⟨?_, noPair_of_not_mem_snd p q l (fun hm => h (List.mem_cons_of_mem c hm))⟩
      rintro ⟨-, hh⟩
      cases l with
      | nil => cases hh
      | cons d ds =>
          rw [List.head?_cons] at hh
          injection hh with hd
          exact h (hd ▸ List.mem_cons_of_mem c (List.mem_cons_self d ds))

theorem noPair_append (p q : Char) : ∀ a b, noPair p q a = true → noPair p q b = true →
    ¬(a.getLast? = some p ∧ b.head? = some q) → noPair p q (a ++ b) = true
  | [], b, _, hb, _ => hb
  | [c], b, _, hb, hab => by
      rw [List.cons_append, List.nil_append, noPair_cons_iff]
      refine ⟨?_, hb⟩
      rintro ⟨hc, hh⟩
      exact hab ⟨by rw [hc]; rfl, hh⟩
  | c :: c' :: a', b, ha, hb, hab => by
      rw [List.cons_append, noPair_cons_iff]
      have hlast : (c' :: a').getLast? = (c :: c' :: a').getLast? := by
        rw [List.getLast?_cons_cons]
      have htail : noPair p q ((c' :: a') ++ b) = true :=
        noPair_append p q (c' :: a') b (noPair_tail p q c (c' :: a') ha) hb
          (by rw [hlast]; exact hab)
      refine ⟨?_, htail⟩
      rintro ⟨hc, hh⟩
      rw [List.cons_append, List.head?_cons] at hh
      injection hh with hd
      have := (noPair_cons_iff p q c (c' :: a')).mp ha
      exact this.1 ⟨hc, by rw [List.head?_cons, hd]⟩

theorem repl2_cons_of_not (p q c : Char) (new l : List Char)
    (h : ¬(c = p ∧ l.head? = some q)) :
    repl2 p q new (c :: l) = c :: repl2 p q new l := by
  cases l with
  | nil => rfl
  | cons d rest =>
      rw [repl2, if_neg]
      rintro ⟨hc, hd⟩
      exact h ⟨hc, by rw [List.head?_cons, hd]⟩

theorem repl2_match (p q : Char) (new l : List Char) :
    repl2 p q new (p :: q :: l) = new ++ repl2 p q new l := by
  rw [repl2, if_pos ⟨rfl, rfl⟩]

theorem repl2_noPair (p q : Char) (new : List Char) :
    ∀ l, noPair p q l = true → repl2 p q new l = l
  | [], _ => rfl
  | [_], _ => rfl
  | c :: d :: rest, h => by
      have h1 := (noPair_cons_iff p q c (d :: rest)).mp h
      rw [repl2, if_neg (fun hm => h1.1 ⟨hm.1, by rw [List.head?_cons, hm.2]⟩),
        repl2_noPair p q new (d :: rest) h1.2]

theorem repl2_append (p q : Char) (new : List Char) :
    ∀ a b, ¬(a.getLast? = some p ∧ b.head? = some q) →
      repl2 p q new (a ++ b) = repl2 p q new a ++ repl2 p q new b
  | [], b, _ => by rw [List.nil_append, repl2, List.nil_append]
  | [c], b, hab => by
      rw [List.cons_append, List.nil_append,
        repl2_cons_of_not p q c new b (fun hm => hab ⟨by rw [hm.1]; rfl, hm.2⟩)]
      rfl
  | c :: c' :: a', b, hab => by
      have hlast : (c' :: a').getLast? = (c :: c' :: a').getLast? := by
        rw [List.getLast?_cons_cons]
      by_cases h : c = p ∧ c' = q
      · obtain ⟨hc, hc'⟩ := h
        have hbd : ¬(a'.getLast? = some p ∧ b.head? = some q) := by
          rcases a' with _ | ⟨x, xs⟩
          · simp
          · have hx : (x :: xs).getLast? = (c :: c' :: x :: xs).getLast? := by
              rw [List.getLast?_cons_cons, List.getLast?_cons_cons]
            rw [hx]
            exact hab
        rw [hc, hc', List.cons_append, List.cons_append, repl2_match, repl2_match,
          List.append_assoc, repl2_append p q new a' b hbd]
      · rw [List.cons_append, List.cons_append,
          repl2_cons_of_not p q c new (c' :: (a' ++ b))
            (fun hm => h ⟨hm.1, by rw [List.head?_cons] at hm; exact Option.some.inj hm.2⟩),
          ← List.cons_append,
          repl2_append p q new (c' :: a') b (by rw [hlast]; exact hab),
          repl2_cons_of_not p q c new (c' :: a')
            (fun hm => h ⟨hm.1, by rw [List.head?_cons] at hm; exact Option.some.inj hm.2⟩)]
        rfl

theorem getLast?_some_of_ne_nil {α : Type} : ∀ l : List α, l ≠ [] → ∃ y, l.getLast? = some y
  | [], h => absurd rfl h
  | [x], _ => ⟨x, rfl⟩
  | x :: y :: ys, _ => by
      rw [List.getLast?_cons_cons]
      exact getLast?_some_of_ne_nil (y :: ys) (by simp)

theorem getLast?_append_right {α : Type} (a b : List α) (hb : b ≠ []) :
    (a ++ b).getLast? = b.getLast? := by
  obtain ⟨y, hy⟩ := getLast?_some_of_ne_nil b hb
  rw [List.getLast?_append, hy]
  rfl

theorem natCharsAux_mem : ∀ fuel n c, c ∈ natCharsAux fuel n → ∃ k, k < 10 ∧ c = digitChar k
  | 0, _, c, h => absurd h (List.not_mem_nil c)
  | fuel + 1, n, c, h => by
      by_cases hn : n < 10
      · simp only [natCharsAux, if_pos hn, List.mem_singleton] at h
        exact ⟨n, hn, h⟩
      · simp only [natCharsAux, if_neg hn, List.mem_append, List.mem_singleton] at h
        rcases h with h | h
        · exact natCharsAux_mem fuel (n / 10) c h
        · exact ⟨n % 10, Nat.mod_lt _ (by norm_num), h⟩

theorem intChars_mem (i : Int) :
    ∀ c ∈ intChars i, c = '-' ∨ ∃ k, k < 10 ∧ c = digitChar k := by
  intro c h
  by_cases hi : i < 0
  · simp only [intChars, if_pos hi, List.mem_cons] at h
    rcases h with rfl | h
    · exact Or.inl rfl
    · exact Or.inr (natCharsAux_mem _ _ c h)
  · simp only [intChars, if_neg hi] at h
    exact Or.inr (natCharsAux_mem _ _ c h)

theorem digitChar_ne : ∀ k < 10, digitChar k ≠ '"' ∧ digitChar k ≠ ':' ∧ digitChar k ≠ ',' := by
  decide

theorem quote_not_mem_intChars (i : Int) : '"' ∉ intChars i := by
  intro h
  rcases intChars_mem i '"' h with h | ⟨k, hk, h⟩
  · cases h
  · exact (digitChar_ne k hk).1 h.symm

theorem comma_not_mem_intChars (i : Int) : ',' ∉ intChars i := by
  intro h
  rcases intChars_mem i ',' h with h | ⟨k, hk, h⟩
  · cases h
  · exact (digitChar_ne k hk).2.2 h.symm

theorem natCharsAux_ne_nil (fuel n : Nat) : natCharsAux (fuel + 1) n ≠ [] := by
  by_cases hn : n < 10
  · simp [natCharsAux, hn]
  · simp [natCharsAux, hn]

theorem intChars_ne_nil (i : Int) : intChars i ≠ [] := by
  by_cases hi : i < 0
  · simp [intChars, hi]
  · simp only [intChars, if_neg hi, natChars]
    exact natCharsAux_ne_nil _ _

theorem hexDigit_facts : ∀ k < 16, hexDigit k ≠ '"' ∧ hexDigit k ≠ ',' := by decide

/-- The three escape-output facts the rewriting argument needs: the escape
of one character is nonempty and starts with the character itself or a
backslash; it contains no quote unless the character is one; and it does
not end in a comma unless the character is one. -/
theorem goEscapeChar_facts (c : Char) :
    (∃ d l', goEscapeChar c = d :: l' ∧ (d = c ∨ d = '\\')) ∧
    (c ≠ '"' → '"' ∉ goEscapeChar c) ∧
    (c ≠ ',' → (goEscapeChar c).getLast? ≠ some ',') := by
  by_cases h128 : c.toNat < 128
  · by_cases hq : c = '"'
    · subst hq
      refine ⟨⟨'\\', ['"'], rfl, Or.inr rfl⟩, fun h => absurd rfl h, fun _ => by decide⟩
    · by_cases hbs : c = '\\'
      · subst hbs
        exact ⟨⟨'\\', ['\\'], rfl, Or.inl rfl⟩, fun _ => by decide, fun _ => by decide⟩
      · by_cases hhtml : c = '<' ∨ c = '>' ∨ c = '&'
        · rcases hhtml with rfl | rfl | rfl
          · exact ⟨⟨'\\', _, rfl, Or.inr rfl⟩, fun _ => by decide, fun _ => by decide⟩
          · exact ⟨⟨'\\', _, rfl, Or.inr rfl⟩, fun _ => by decide, fun _ => by decide⟩
          · exact ⟨⟨'\\', _, rfl, Or.inr rfl⟩, fun _ => by decide, fun _ => by decide⟩
        · by_cases hctl : c.toNat < 32
          · by_cases hn : c = '\n'
            · subst hn
              exact ⟨⟨'\\', _, rfl, Or.inr rfl⟩, fun _ => by decide, fun _ => by decide⟩
            · by_cases hcr : c = '\r'
              · subst hcr
                exact ⟨⟨'\\', _, rfl, Or.inr rfl⟩, fun _ => by decide, fun _ => by decide⟩
              · by_cases ht : c = '\t'
                · subst ht
                  exact ⟨⟨'\\', _, rfl, Or.inr rfl⟩, fun _ => by decide, fun _ => by decide⟩
                · have he : goEscapeChar c =
                      ['\\', 'u', '0', '0', hexDigit (c.toNat / 16), hexDigit (c.toNat % 16)] := by
                    simp only [goEscapeChar]
                    rw [if_pos h128, if_neg hq, if_neg hbs,
                      if_neg (by simpa [not_or] using hhtml), if_pos hctl,
                      if_neg hn, if_neg hcr, if_neg ht]
                  rw [he]
                  have h16 : c.toNat % 16 < 16 := by omega
                  refine ⟨⟨'\\', _, rfl, Or.inr rfl⟩, fun _ => ?_, fun _ => ?_⟩
                  · intro hm
                    simp only [List.mem_cons, List.not_mem_nil, or_false] at hm
                    rcases hm with h | h | h | h | h | h <;>
                      first
                        | cases h
                        | exact (hexDigit_facts _ (by omega)).1 h.symm
                        | exact (hexDigit_facts _ h16).1 h.symm
                  · have : (['\\', 'u', '0', '0', hexDigit (c.toNat / 16),
                        hexDigit (c.toNat % 16)] : List Char).getLast? =
                        some (hexDigit (c.toNat % 16)) := rfl
                    rw [this]
                    intro hm
                    injection hm with hm
                    exact (hexDigit_facts _ h16).2 hm
          · have he : goEscapeChar c = [c] := by
              simp only [goEscapeChar]
              rw [if_pos h128, if_neg hq, if_neg hbs,
                if_neg (by simpa [not_or] using hhtml), if_neg hctl]
            rw [he]
            refine ⟨⟨c, [], rfl, Or.inl rfl⟩, fun h => by simpa using Ne.symm h, fun h => ?_⟩
            intro hm
            injection hm with hm
            exact h hm
  · by_cases h2028 : c.toNat = 8232
    · have hc : c = ' ' := by rw [← Char.ofNat_toNat c, h2028]
      subst hc
      exact ⟨⟨'\\', ['u', '2', '0', '2', '8'], by decide, Or.inr rfl⟩, fun _ => by decide,
        fun _ => by decide⟩
    · by_cases h2029 : c.toNat = 8233
      · have hc : c = ' ' := by rw [← Char.ofNat_toNat c, h2029]
        subst hc
        exact ⟨⟨'\\', ['u', '2', '0', '2', '9'], by decide, Or.inr rfl⟩, fun _ => by decide,
          fun _ => by decide⟩
      · have he : goEscapeChar c = [c] := by
          simp only [goEscapeChar]
          rw [if_neg h128, if_neg h2028, if_neg h2029]
        rw [he]
        refine ⟨⟨c, [], rfl, Or.inl rfl⟩, fun h => by simpa using Ne.symm h, fun h => ?_⟩
        intro hm
        injection hm with hm
        exact h hm

theorem goEscape_ne_nil (s : List Char) (h : s ≠ []) : goEscape s ≠ [] := by
  cases s with
  | nil => exact absurd rfl h
  | cons c cs =>
      obtain ⟨d, l', he, -⟩ := (goEscapeChar_facts c).1
      show goEscapeChar c ++ goEscape cs ≠ []
      rw [he]
      simp

theorem goEscape_quote_not_mem (s : List Char) (h : '"' ∉ s) : '"' ∉ goEscape s := by
  induction s with
  | nil => simp [goEscape]
  | cons c cs ih =>
      show '"' ∉ goEscapeChar c ++ goEscape cs
      rw [List.mem_append]
      rintro (hm | hm)
      · exact (goEscapeChar_facts c).2.1
          (fun he => h (he ▸ List.mem_cons_self c cs)) hm
      · exact ih (fun hm' => h (List.mem_cons_of_mem c hm')) hm

theorem goEscape_head_ne_colon (s : List Char) (h : s.head? ≠ some ':') :
    (goEscape s).head? ≠ some ':' := by
  cases s with
  | nil => simp [goEscape]
  | cons c cs =>
      obtain ⟨d, l', he, hd⟩ := (goEscapeChar_facts c).1
      show (goEscapeChar c ++ goEscape cs).head? ≠ some ':'
      rw [he, List.cons_append, List.head?_cons]
      intro hm
      injection hm with hm
      rcases hd with rfl | rfl
      · rw [List.head?_cons] at h
        exact h (by rw [hm])
      · cases hm

theorem goEscape_getLast_ne_comma (s : List Char) (h : s.getLast? ≠ some ',') :
    (goEscape s).getLast? ≠ some ',' := by
  induction s with
  | nil => simp [goEscape]
  | cons c cs ih =>
      show (goEscapeChar c ++ goEscape cs).getLast? ≠ some ','
      by_cases hnil : cs = []
      · subst hnil
        rw [show goEscape [] = [] from rfl, List.append_nil]
        apply (goEscapeChar_facts c).2.2
        intro hc
        subst hc
        exact h rfl
      · rw [getLast?_append_right _ _ (goEscape_ne_nil cs hnil)]
        apply ih
        intro hm
        apply h
        rcases cs with _ | ⟨e, es⟩
        · exact absurd rfl hnil
        · rw [List.getLast?_cons_cons]
          exact hm

/-- Members of the object, each preceded by its separating comma, closed by
the final brace. -/
def tailChunks (f : List Char × List Char → List Char) :
    List (List Char × List Char) → List Char
  | [] => ['}']
  | nv :: ps => ',' :: (f nv ++ tailChunks f ps)

/-- Same, with the spec's `, ` separator. -/
def tailChunksSp (f : List Char × List Char → List Char) :
    List (List Char × List Char) → List Char
  | [] => ['}']
  | nv :: ps => ',' :: ' ' :: (f nv ++ tailChunksSp f ps)

def topChunks (f : List Char × List Char → List Char)
    (ps : List (List Char × List Char)) : List Char :=
  match ps with
  | [] => ['}']
  | nv :: ps => f nv ++ tailChunks f ps

def topChunksSp (f : List Char × List Char → List Char)
    (ps : List (List Char × List Char)) : List Char :=
  match ps with
  | [] => ['}']
  | nv :: ps => f nv ++ tailChunksSp f ps

theorem concat_eq_chunks (f : List Char × List Char → List Char) :
    ∀ ps, fieldsConcat [','] (ps.map f) ++ ['}'] = topChunks f ps
  | [] => rfl
  | [_] => rfl
  | nv :: nv' :: ps => by
      show (f nv ++ ([','] ++ fieldsConcat [','] (f nv' :: List.map f ps))) ++ ['}'] = _
      rw [List.append_assoc, List.append_assoc,
        show fieldsConcat [','] (f nv' :: List.map f ps) ++ ['}']
          = fieldsConcat [','] (List.map f (nv' :: ps)) ++ ['}'] from rfl,
        concat_eq_chunks f (nv' :: ps)]
      rfl

theorem concat_eq_chunksSp (f : List Char × List Char → List Char) :
    ∀ ps, fieldsConcat [',', ' '] (ps.map f) ++ ['}'] = topChunksSp f ps
  | [] => rfl
  | [_] => rfl
  | nv :: nv' :: ps => by
      show (f nv ++ ([',', ' '] ++ fieldsConcat [',', ' '] (f nv' :: List.map f ps))) ++ ['}'] = _
      rw [List.append_assoc, List.append_assoc,
        show fieldsConcat [',', ' '] (f nv' :: List.map f ps) ++ ['}']
          = fieldsConcat [',', ' '] (List.map f (nv' :: ps)) ++ ['}'] from rfl,
        concat_eq_chunksSp f (nv' :: ps)]
      rfl

theorem tailChunks_head (f : List Char × List Char → List Char)
    (ps : List (List Char × List Char)) :
    (tailChunks f ps).head? ≠ some ':' ∧ (tailChunks f ps).head? ≠ some '"' := by
  cases ps <;> simp [tailChunks]

/-- Stage 1 across one member: the `":` after the field name gains a space,
and nothing inside the name or the encoded value matches. -/
theorem repl1_field (name val rest : List Char)
    (hq : '"' ∉ name) (hh : name.head? ≠ some ':') (hval : noPair '"' ':' val = true)
    (hrest : rest.head? ≠ some ':') :
    repl2 '"' ':' ['"', ':', ' '] ((('"' :: name) ++ '"' :: ':' :: val) ++ rest)
      = (('"' :: name) ++ '"' :: ':' :: ' ' :: val) ++ repl2 '"' ':' ['"', ':', ' '] rest := by
  have hsh : ((('"' :: name) ++ '"' :: ':' :: val) ++ rest)
      = ('"' :: name) ++ ('"' :: ':' :: (val ++ rest)) := by
    simp
  rw [hsh]
  have hnp : noPair '"' ':' ('"' :: name) = true := by
    rw [noPair_cons_iff]
    exact ⟨fun hm => hh hm.2, noPair_of_not_mem_fst '"' ':' name hq⟩
  rw [repl2_append '"' ':' _ ('"' :: name) ('"' :: ':' :: (val ++ rest)) (by simp),
    repl2_noPair '"' ':' _ ('"' :: name) hnp, repl2_match,
    repl2_append '"' ':' _ val rest (fun hm => hrest hm.2),
    repl2_noPair '"' ':' _ val hval]
  simp

theorem repl1_tail :
    ∀ ps, (∀ nv ∈ ps, '"' ∉ nv.1 ∧ nv.1.head? ≠ some ':' ∧ noPair '"' ':' nv.2 = true) →
      repl2 '"' ':' ['"', ':', ' '] (tailChunks fieldCompact ps) = tailChunks fieldSpaced ps
  | [], _ => rfl
  | nv :: ps, h => by
      obtain ⟨h1, h2, h3⟩ := h nv (List.mem_cons_self nv ps)
      show repl2 '"' ':' ['"', ':', ' ']
        (',' :: ((('"' :: nv.1) ++ '"' :: ':' :: nv.2) ++ tailChunks fieldCompact ps)) = _
      rw [repl2_cons_of_not '"' ':' ',' _ _ (fun hm => absurd hm.1 (by decide)),
        repl1_field nv.1 nv.2 _ h1 h2 h3 (tailChunks_head fieldCompact ps).1,
        repl1_tail ps (fun nv' h' => h nv' (List.mem_cons_of_mem nv h'))]
      rfl

theorem repl1_top (ps : List (List Char × List Char))
    (h : ∀ nv ∈ ps, '"' ∉ nv.1 ∧ nv.1.head? ≠ some ':' ∧ noPair '"' ':' nv.2 = true) :
    repl2 '"' ':' ['"', ':', ' '] ('{' :: topChunks fieldCompact ps)
      = '{' :: topChunks fieldSpaced ps := by
  cases ps with
  | nil => rfl
  | cons nv ps =>
      obtain ⟨h1, h2, h3⟩ := h nv (List.mem_cons_self nv ps)
      show repl2 '"' ':' ['"', ':', ' ']
        ('{' :: ((('"' :: nv.1) ++ '"' :: ':' :: nv.2) ++ tailChunks fieldCompact ps)) = _
      rw [repl2_cons_of_not '"' ':' '{' _ _ (fun hm => absurd hm.1 (by decide)),
        repl1_field nv.1 nv.2 _ h1 h2 h3 (tailChunks_head fieldCompact ps).1,
        repl1_tail ps (fun nv' h' => h nv' (List.mem_cons_of_mem nv h'))]
      rfl

/-- Stage 2 never matches inside one spaced member. -/
theorem repl2_field_noPair (name val : List Char)
    (hc : ',' ∉ name) (hval : noPair ',' '"' val = true) :
    noPair ',' '"' (('"' :: name) ++ '"' :: ':' :: ' ' :: val) = true := by
  apply noPair_append
  · rw [noPair_cons_iff]
    exact ⟨fun hm => absurd hm.1 (by decide), noPair_of_not_mem_fst ',' '"' name hc⟩
  · rw [noPair_cons_of_ne _ _ _ _ (by decide), noPair_cons_of_ne _ _ _ _ (by decide),
      noPair_cons_of_ne _ _ _ _ (by decide)]
    exact hval
  · rintro ⟨hl, -⟩
    rcases List.mem_cons.mp (mem_of_getLast?_eq _ _ hl) with hm | hm
    · cases hm
    · exact hc hm

theorem repl2_field_getLast (name val : List Char) (hvl : val.getLast? ≠ some ',') :
    (('"' :: name) ++ '"' :: ':' :: ' ' :: val).getLast? ≠ some ',' := by
  rw [getLast?_append_right _ _ (by simp)]
  rcases val with _ | ⟨x, xs⟩
  · decide
  · rw [List.getLast?_cons_cons, List.getLast?_cons_cons, List.getLast?_cons_cons]
    exact hvl

theorem repl2_tailSp :
    ∀ ps, (∀ nv ∈ ps, ',' ∉ nv.1 ∧ noPair ',' '"' nv.2 = true ∧ nv.2.getLast? ≠ some ',') →
      repl2 ',' '"' [',', ' ', '"'] (tailChunks fieldSpaced ps) = tailChunksSp fieldSpaced ps
  | [], _ => rfl
  | nv :: ps, h => by
      obtain ⟨h1, h2, h3⟩ := h nv (List.mem_cons_self nv ps)
      show repl2 ',' '"' [',', ' ', '"']
        (',' :: ((('"' :: nv.1) ++ '"' :: ':' :: ' ' :: nv.2) ++ tailChunks fieldSpaced ps)) = _
      have hsh : ',' :: ((('"' :: nv.1) ++ '"' :: ':' :: ' ' :: nv.2) ++ tailChunks fieldSpaced ps)
          = ',' :: '"' :: (nv.1 ++ ('"' :: ':' :: ' ' :: (nv.2 ++ tailChunks fieldSpaced ps))) := by
        simp
      rw [hsh, repl2_match,
        repl2_append ',' '"' _ nv.1 _ (by
          rintro ⟨hl, -⟩
          exact h1 (mem_of_getLast?_eq _ _ hl)),
        repl2_noPair ',' '"' _ nv.1 (noPair_of_not_mem_fst ',' '"' nv.1 h1),
        repl2_cons_of_not ',' '"' '"' _ _ (fun hm => absurd hm.1 (by decide)),
        repl2_cons_of_not ',' '"' ':' _ _ (fun hm => absurd hm.1 (by decide)),
        repl2_cons_of_not ',' '"' ' ' _ _ (fun hm => absurd hm.1 (by decide)),
        repl2_append ',' '"' _ nv.2 _ (fun hm => h3 hm.1),
        repl2_noPair ',' '"' _ nv.2 h2,
        repl2_tailSp ps (fun nv' h' => h nv' (List.mem_cons_of_mem nv h'))]
      simp [tailChunksSp, fieldSpaced]

theorem repl2_topSp (ps : List (List Char × List Char))
    (h : ∀ nv ∈ ps, ',' ∉ nv.1 ∧ noPair ',' '"' nv.2 = true ∧ nv.2.getLast? ≠ some ',') :
    repl2 ',' '"' [',', ' ', '"'] ('{' :: topChunks fieldSpaced ps)
      = '{' :: topChunksSp fieldSpaced ps := by
  cases ps with
  | nil => rfl
  | cons nv ps =>
      obtain ⟨h1, h2, h3⟩ := h nv (List.mem_cons_self nv ps)
      show repl2 ',' '"' [',', ' ', '"']
        ('{' :: ((('"' :: nv.1) ++ '"' :: ':' :: ' ' :: nv.2) ++ tailChunks fieldSpaced ps)) = _
      rw [repl2_cons_of_not ',' '"' '{' _ _ (fun hm => absurd hm.1 (by decide)),
        repl2_append ',' '"' _ _ _ (fun hm =>
          (repl2_field_getLast nv.1 nv.2 h3 hm.1).elim),
        repl2_noPair ',' '"' _ _ (repl2_field_noPair nv.1 nv.2 h1 h2),
        repl2_tailSp ps (fun nv' h' => h nv' (List.mem_cons_of_mem nv h'))]
      rfl

/-- The raw name/value pairs of the marshalled key, in declaration order. -/
def keyPairs (v : computableCacheKey) : List (List Char × List Char) :=
  (if v.DurationSeconds ≠ 0 then
    [("DurationSeconds".data, intChars v.DurationSeconds)] else []) ++
  (if v.ExternalId ≠ "" then
    [("ExternalId".data, jsonStr v.ExternalId.data)] else []) ++
  (if v.RoleArn ≠ "" then
    [("RoleArn".data, jsonStr v.RoleArn.data)] else []) ++
  (if v.SerialNumber ≠ "" then
    [("SerialNumber".data, jsonStr v.SerialNumber.data)] else [])

theorem keyFields_eq_map (v : computableCacheKey) :
    keyFields v = (keyPairs v).map fieldCompact := by
  unfold keyFields keyPairs
  by_cases h1 : v.DurationSeconds ≠ 0 <;> by_cases h2 : v.ExternalId ≠ "" <;>
    by_cases h3 : v.RoleArn ≠ "" <;> by_cases h4 : v.SerialNumber ≠ "" <;>
    simp [h1, h2, h3, h4]

theorem specPrettyFields_eq_map (v : computableCacheKey) :
    specPrettyFields v = (keyPairs v).map fieldSpaced := by
  unfold specPrettyFields keyPairs
  by_cases h1 : v.DurationSeconds ≠ 0 <;> by_cases h2 : v.ExternalId ≠ "" <;>
    by_cases h3 : v.RoleArn ≠ "" <;> by_cases h4 : v.SerialNumber ≠ "" <;>
    simp [h1, h2, h3, h4]

theorem mem_ite_singleton {α : Type} (c : Prop) [Decidable c] (x y : α)
    (h : y ∈ if c then [x] else ([] : List α)) : y = x := by
  split at h
  · exact List.mem_singleton.mp h
  · cases h

/-- A JSON string value with no raw quote and no leading colon contains no
stage-1 pattern. -/
theorem jsonStr_inv1 (sl : List Char) (hq : '"' ∉ sl) (hh : sl.head? ≠ some ':') :
    noPair '"' ':' (jsonStr sl) = true := by
  show noPair '"' ':' (('"' :: goEscape sl) ++ ['"']) = true
  apply noPair_append
  · rw [noPair_cons_iff]
    exact ⟨fun hm => goEscape_head_ne_colon sl hh hm.2,
      noPair_of_not_mem_fst '"' ':' _ (goEscape_quote_not_mem sl hq)⟩
  · decide
  · rintro ⟨-, hh'⟩
    exact absurd hh' (by decide)

/-- A JSON string value with no raw quote and no trailing comma contains no
stage-2 pattern and does not end in a comma. -/
theorem jsonStr_inv2 (sl : List Char) (hq : '"' ∉ sl) (hle : sl.getLast? ≠ some ',') :
    noPair ',' '"' (jsonStr sl) = true ∧ (jsonStr sl).getLast? ≠ some ',' := by
  have hglc : ('"' :: goEscape sl).getLast? ≠ some ',' := by
    cases hgo : goEscape sl with
    | nil => decide
    | cons e es =>
        rw [List.getLast?_cons_cons, ← hgo]
        exact goEscape_getLast_ne_comma sl hle
  constructor
  · show noPair ',' '"' (('"' :: goEscape sl) ++ ['"']) = true
    apply noPair_append
    · rw [noPair_cons_iff]
      exact ⟨fun hm => absurd hm.1 (by decide),
        noPair_of_not_mem_snd ',' '"' _ (goEscape_quote_not_mem sl hq)⟩
    · decide
    · rintro ⟨hl, -⟩
      exact hglc hl
  · show (('"' :: goEscape sl) ++ ['"']).getLast? ≠ some ','
    rw [getLast?_append_right _ _ (by simp)]
    decide

theorem keyPairs_inv1 (v : computableCacheKey)
    (hE : '"' ∉ v.ExternalId.data ∧ v.ExternalId.data.head? ≠ some ':')
    (hR : '"' ∉ v.RoleArn.data ∧ v.RoleArn.data.head? ≠ some ':')
    (hS : '"' ∉ v.SerialNumber.data ∧ v.SerialNumber.data.head? ≠ some ':') :
    ∀ nv ∈ keyPairs v, '"' ∉ nv.1 ∧ nv.1.head? ≠ some ':' ∧ noPair '"' ':' nv.2 = true := by
  intro nv hnv
  simp only [keyPairs, List.mem_append] at hnv
  rcases hnv with ((h | h) | h) | h
  · rw [mem_ite_singleton _ _ _ h]
    exact ⟨(by decide : '"' ∉ "DurationSeconds".data),
      (by decide : ("DurationSeconds".data).head? ≠ some ':'),
      noPair_of_not_mem_fst '"' ':' _ (quote_not_mem_intChars v.DurationSeconds)⟩
  · rw [mem_ite_singleton _ _ _ h]
    exact ⟨(by decide : '"' ∉ "ExternalId".data),
      (by decide : ("ExternalId".data).head? ≠ some ':'), jsonStr_inv1 _ hE.1 hE.2⟩
  · rw [mem_ite_singleton _ _ _ h]
    exact ⟨(by decide : '"' ∉ "RoleArn".data),
      (by decide : ("RoleArn".data).head? ≠ some ':'), jsonStr_inv1 _ hR.1 hR.2⟩
  · rw [mem_ite_singleton _ _ _ h]
    exact ⟨(by decide : '"' ∉ "SerialNumber".data),
      (by decide : ("SerialNumber".data).head? ≠ some ':'), jsonStr_inv1 _ hS.1 hS.2⟩

theorem keyPairs_inv2 (v : computableCacheKey)
    (hE : '"' ∉ v.ExternalId.data ∧ v.ExternalId.data.getLast? ≠ some ',')
    (hR : '"' ∉ v.RoleArn.data ∧ v.RoleArn.data.getLast? ≠ some ',')
    (hS : '"' ∉ v.SerialNumber.data ∧ v.SerialNumber.data.getLast? ≠ some ',') :
    ∀ nv ∈ keyPairs v, ',' ∉ nv.1 ∧ noPair ',' '"' nv.2 = true ∧
      nv.2.getLast? ≠ some ',' := by
  intro nv hnv
  simp only [keyPairs, List.mem_append] at hnv
  rcases hnv with ((h | h) | h) | h
  · rw [mem_ite_singleton _ _ _ h]
    exact ⟨(by decide : ',' ∉ "DurationSeconds".data),
      noPair_of_not_mem_snd ',' '"' _ (quote_not_mem_intChars v.DurationSeconds),
      fun hm => comma_not_mem_intChars v.DurationSeconds (mem_of_getLast?_eq _ _ hm)⟩
  · rw [mem_ite_singleton _ _ _ h]
    exact ⟨(by decide : ',' ∉ "ExternalId".data),
      (jsonStr_inv2 _ hE.1 hE.2).1, (jsonStr_inv2 _ hE.1 hE.2).2⟩
  · rw [mem_ite_singleton _ _ _ h]
    exact ⟨(by decide : ',' ∉ "RoleArn".data),
      (jsonStr_inv2 _ hR.1 hR.2).1, (jsonStr_inv2 _ hR.1 hR.2).2⟩
  · rw [mem_ite_singleton _ _ _ h]
    exact ⟨(by decide : ',' ∉ "SerialNumber".data),
      (jsonStr_inv2 _ hS.1 hS.2).1, (jsonStr_inv2 _ hS.1 hS.2).2⟩

/-- The two textual replacements turn the compact marshalling into exactly
the spec's pretty document, provided no string parameter contains a raw
quote, starts with a colon, or ends with a comma. -/
theorem cacheKey_chars (v : computableCacheKey)
    (hE : '"' ∉ v.ExternalId.data ∧ v.ExternalId.data.head? ≠ some ':' ∧
      v.ExternalId.data.getLast? ≠ some ',')
    (hR : '"' ∉ v.RoleArn.data ∧ v.RoleArn.data.head? ≠ some ':' ∧
      v.RoleArn.data.getLast? ≠ some ',')
    (hS : '"' ∉ v.SerialNumber.data ∧ v.SerialNumber.data.head? ≠ some ':' ∧
      v.SerialNumber.data.getLast? ≠ some ',') :
    repl2 ',' '"' [',', ' ', '"'] (repl2 '"' ':' ['"', ':', ' '] (jsonMarshalKey v))
      = (specPrettyJson v).data := by
  show repl2 ',' '"' [',', ' ', '"'] (repl2 '"' ':' ['"', ':', ' ']
      ('{' :: (fieldsConcat [','] (keyFields v) ++ ['}']))) = _
  rw [keyFields_eq_map, concat_eq_chunks fieldCompact (keyPairs v),
    repl1_top _ (keyPairs_inv1 v ⟨hE.1, hE.2.1⟩ ⟨hR.1, hR.2.1⟩ ⟨hS.1, hS.2.1⟩),
    repl2_topSp _ (keyPairs_inv2 v ⟨hE.1, hE.2.2⟩ ⟨hR.1, hR.2.2⟩ ⟨hS.1, hS.2.2⟩),
    ← concat_eq_chunksSp fieldSpaced (keyPairs v), ← specPrettyFields_eq_map]
  rfl

theorem natToBytesBE_lt : ∀ k n, ∀ b ∈ natToBytesBE k n, b < 256
  | 0, _, _, hb => by cases hb
  | k + 1, n, b, hb => by
      rw [natToBytesBE] at hb
      rcases List.mem_append.mp hb with h | h
      · exact natToBytesBE_lt k (n / 256) b h
      · rw [List.mem_singleton] at h
        rw [h]
        exact Nat.mod_lt _ (by omega)

theorem sha1Bytes_lt (msg : List Nat) : ∀ b ∈ sha1Bytes msg, b < 256 := by
  intro b hb
  unfold sha1Bytes at hb
  rcases hfold : (chunks64 (sha1Pad msg)).foldl sha1Block
      (1732584193, 4023233417, 2562383102, 271733878, 3285377520) with ⟨h0, h1, h2, h3, h4⟩
  rw [hfold] at hb
  have hb' : b ∈ natToBytesBE 4 h0 ++ natToBytesBE 4 h1 ++ natToBytesBE 4 h2 ++
      natToBytesBE 4 h3 ++ natToBytesBE 4 h4 := hb
  simp only [List.mem_append] at hb'
  rcases hb' with ((((h | h) | h) | h) | h) <;> exact natToBytesBE_lt 4 _ b h

theorem asciiToLower_hexDigit : ∀ j < 16, asciiToLower (hexDigit j) = hexDigit j := by decide

/-- `strings.ToLower` is the identity on the already-lowercase hex digest. -/
theorem map_asciiToLower_hexEncode (bytes : List Nat) (h : ∀ b ∈ bytes, b < 256) :
    (hexEncode bytes).data.map asciiToLower = (hexEncode bytes).data := by
  show (bytes.foldr (fun b acc => hexDigit (b / 16) :: hexDigit (b % 16) :: acc) []).map
      asciiToLower
    = bytes.foldr (fun b acc => hexDigit (b / 16) :: hexDigit (b % 16) :: acc) []
  induction bytes with
  | nil => rfl
  | cons b bs ih =>
      have hb := h b (List.mem_cons_self b bs)
      show (hexDigit (b / 16) :: hexDigit (b % 16) ::
          bs.foldr (fun b acc => hexDigit (b / 16) :: hexDigit (b % 16) :: acc) []).map
            asciiToLower = _
      rw [List.map_cons, List.map_cons,
        asciiToLower_hexDigit (b / 16) (by omega),
        asciiToLower_hexDigit (b % 16) (by omega),
        ih (fun b' hb' => h b' (List.mem_cons_of_mem b hb'))]
      rfl

/-- Under the no-quote / no-leading-colon / no-trailing-comma proviso on the
string parameters, the code's cache key is exactly the digest of the spec's
pretty document. -/
theorem cacheKeyString_eq_spec (v : computableCacheKey)
    (hE : '"' ∉ v.ExternalId.data ∧ v.ExternalId.data.head? ≠ some ':' ∧
      v.ExternalId.data.getLast? ≠ some ',')
    (hR : '"' ∉ v.RoleArn.data ∧ v.RoleArn.data.head? ≠ some ':' ∧
      v.RoleArn.data.getLast? ≠ some ',')
    (hS : '"' ∉ v.SerialNumber.data ∧ v.SerialNumber.data.head? ≠ some ':' ∧
      v.SerialNumber.data.getLast? ≠ some ',') :
    cacheKeyString v = sha1Hex (specPrettyJson v) := by
  show (⟨(hexEncode (sha1Bytes ((repl2 ',' '"' [',', ' ', '"']
      (repl2 '"' ':' ['"', ':', ' '] (jsonMarshalKey v))).foldr
      (fun c acc => utf8EncodeChar c ++ acc) []))).data.map asciiToLower⟩ : String) = _
  rw [cacheKey_chars v hE hR hS, map_asciiToLower_hexEncode _ (sha1Bytes_lt _)]
  rfl

/-! ## Claims about the orchestration and the store -/

/-- C8 as stated is refuted: a timestamp in year 10000 serializes to a
five-digit year, whose parse fails (the fixed-width year field reads 1000
and then expects a dash), so nothing — let alone the original timestamp to
the second — comes back. -/
theorem expiration_roundtrip_cex :
    expireTimeUnmarshal (expireTimeMarshal ⟨10000, 1, 1, 0, 0, 0, 0⟩) = none ∧
    expireTimeUnmarshal (expireTimeMarshal ⟨10000, 1, 1, 0, 0, 0, 0⟩) ≠
      some ⟨10000, 1, 1, 0, 0, 0, 0⟩ := by
  constructor
  · decide
  · decide

/-- C8 (amended): for every expiration timestamp with valid calendar fields
and a year of at most 9999, serializing through the `+00:00`-suffixed
format and parsing the serialized form yields the original timestamp to
the second (the sub-second component is zeroed). -/
theorem expiration_roundtrip (t : DateTime) (hy : t.year ≤ 9999) (hmo1 : 1 ≤ t.month)
    (hmo : t.month ≤ 12) (hd1 : 1 ≤ t.day) (hd : t.day ≤ daysInMonth t.year t.month)
    (hh : t.hour ≤ 23) (hmi : t.minute ≤ 59) (hs : t.sec ≤ 59) :
    expireTimeUnmarshal (expireTimeMarshal t) =
      some ⟨t.year, t.month, t.day, t.hour, t.minute, t.sec, 0⟩ := by
  rw [expireTimeMarshal_token t hy]
  exact expireTimeUnmarshal_token t hy hmo1 hmo hd1 hd hh hmi hs

/-- Witness for `expiration_roundtrip` at a timestamp with a sub-second
component, which the round trip zeroes. -/
theorem expiration_roundtrip_witness :
    expireTimeUnmarshal (expireTimeMarshal ⟨2030, 6, 15, 12, 30, 45, 500⟩) =
      some ⟨2030, 6, 15, 12, 30, 45, 0⟩ :=
  expiration_roundtrip ⟨2030, 6, 15, 12, 30, 45, 500⟩ (by decide) (by decide) (by decide)
    (by decide) (by decide) (by decide) (by decide) (by decide)

/-- C2 as stated is refuted: credentials whose expiration is strictly in
the future but carries a sub-second component are returned from the
save/load round trip with the expiration truncated to the second — not
byte-identical — even though the cache is hit without calling the
provider. -/
theorem save_load_cex :
    (CLICache.save ⟨"AK", "SK", "ST", ⟨2030, 1, 1, 0, 0, 0, 1⟩, true⟩ ⟨true, none⟩).error
      = none ∧
    DateTime.after (⟨2030, 1, 1, 0, 0, 0, 1⟩ : DateTime) ⟨2020, 1, 1, 0, 0, 0, 0⟩ = true ∧
    (CLICache.Load false (⟨"P", "P", "P", ⟨2031, 1, 1, 0, 0, 0, 0⟩, true⟩, none)
        ⟨2020, 1, 1, 0, 0, 0, 0⟩
        (CLICache.save ⟨"AK", "SK", "ST", ⟨2030, 1, 1, 0, 0, 0, 1⟩, true⟩
          ⟨true, none⟩).fs).providerCalled = false ∧
    (CLICache.Load false (⟨"P", "P", "P", ⟨2031, 1, 1, 0, 0, 0, 0⟩, true⟩, none)
        ⟨2020, 1, 1, 0, 0, 0, 0⟩
        (CLICache.save ⟨"AK", "SK", "ST", ⟨2030, 1, 1, 0, 0, 0, 1⟩, true⟩
          ⟨true, none⟩).fs).creds.expires ≠ (⟨2030, 1, 1, 0, 0, 0, 1⟩ : DateTime) := by
  refine ⟨rfl, rfl, ?_, ?_⟩
  · decide
  · decide

/-- C2 (amended): for every credentials value whose expiration has valid
calendar fields, a year of at most 9999 and whole-second precision, and is
strictly after the current time, saving into an existing cache directory
and then loading without a forced refresh returns the same four fields
without invoking the provider and without error. -/
theorem save_load_roundtrip (creds : Credentials) (provider : Credentials × Option String)
    (now : DateTime) (fs : FS) (hdir : fs.dirExists = true)
    (hy : creds.expires.year ≤ 9999) (hmo1 : 1 ≤ creds.expires.month)
    (hmo : creds.expires.month ≤ 12) (hd1 : 1 ≤ creds.expires.day)
    (hd : creds.expires.day ≤ daysInMonth creds.expires.year creds.expires.month)
    (hh : creds.expires.hour ≤ 23) (hmi : creds.expires.minute ≤ 59)
    (hs : creds.expires.sec ≤ 59) (hns : creds.expires.nsec = 0)
    (hnow : now.key < creds.expires.key) :
    (CLICache.save creds fs).error = none ∧
    (CLICache.Load false provider now (CLICache.save creds fs).fs).creds.accessKeyId =
      creds.accessKeyId ∧
    (CLICache.Load false provider now (CLICache.save creds fs).fs).creds.secretAccessKey =
      creds.secretAccessKey ∧
    (CLICache.Load false provider now (CLICache.save creds fs).fs).creds.sessionToken =
      creds.sessionToken ∧
    (CLICache.Load false provider now (CLICache.save creds fs).fs).creds.expires =
      creds.expires ∧
    (CLICache.Load false provider now (CLICache.save creds fs).fs).providerCalled = false ∧
    (CLICache.Load false provider now (CLICache.save creds fs).fs).error = none := by
  have hexp : creds.expires = ⟨creds.expires.year, creds.expires.month, creds.expires.day,
      creds.expires.hour, creds.expires.minute, creds.expires.sec, 0⟩ := by
    rw [← hns]
  have hfile : (CLICache.save creds fs).fs.file =
      some ⟨true, ⟨marshalCacheItem (itemOfCreds creds)⟩⟩ := by
    simp [CLICache.save, hdir]
  have hitem := unmarshalCacheItem_marshal (itemOfCreds creds) hy hmo1 hmo hd1 hd hh hmi hs
  simp only [itemOfCreds] at hitem
  rw [show (⟨creds.expires.year, creds.expires.month, creds.expires.day, creds.expires.hour,
    creds.expires.minute, creds.expires.sec, 0⟩ : DateTime) = creds.expires from hexp.symm]
    at hitem
  have hafter : DateTime.after creds.expires now = true := by
    simp [DateTime.after, hnow]
  refine ⟨by simp [CLICache.save, hdir], ?_⟩
  simp [CLICache.Load, CLICache.get, hfile, hitem, itemOfCreds, credExpired, hafter]

/-- Witness for `save_load_roundtrip` at concrete credentials. -/
theorem save_load_roundtrip_witness :
    (CLICache.save ⟨"AKIA", "SECRET", "TOKEN", ⟨2030, 1, 2, 3, 4, 5, 0⟩, true⟩
      ⟨true, none⟩).error = none ∧
    (CLICache.Load false (⟨"P", "P", "P", ⟨2031, 1, 1, 0, 0, 0, 0⟩, true⟩, none)
        ⟨2020, 1, 1, 0, 0, 0, 0⟩
        (CLICache.save ⟨"AKIA", "SECRET", "TOKEN", ⟨2030, 1, 2, 3, 4, 5, 0⟩, true⟩
          ⟨true, none⟩).fs).creds.accessKeyId = "AKIA" ∧
    (CLICache.Load false (⟨"P", "P", "P", ⟨2031, 1, 1, 0, 0, 0, 0⟩, true⟩, none)
        ⟨2020, 1, 1, 0, 0, 0, 0⟩
        (CLICache.save ⟨"AKIA", "SECRET", "TOKEN", ⟨2030, 1, 2, 3, 4, 5, 0⟩, true⟩
          ⟨true, none⟩).fs).creds.secretAccessKey = "SECRET" ∧
    (CLICache.Load false (⟨"P", "P", "P", ⟨2031, 1, 1, 0, 0, 0, 0⟩, true⟩, none)
        ⟨2020, 1, 1, 0, 0, 0, 0⟩
        (CLICache.save ⟨"AKIA", "SECRET", "TOKEN", ⟨2030, 1, 2, 3, 4, 5, 0⟩, true⟩
          ⟨true, none⟩).fs).creds.sessionToken = "TOKEN" ∧
    (CLICache.Load false (⟨"P", "P", "P", ⟨2031, 1, 1, 0, 0, 0, 0⟩, true⟩, none)
        ⟨2020, 1, 1, 0, 0, 0, 0⟩
        (CLICache.save ⟨"AKIA", "SECRET", "TOKEN", ⟨2030, 1, 2, 3, 4, 5, 0⟩, true⟩
          ⟨true, none⟩).fs).creds.expires = ⟨2030, 1, 2, 3, 4, 5, 0⟩ ∧
    (CLICache.Load false (⟨"P", "P", "P", ⟨2031, 1, 1, 0, 0, 0, 0⟩, true⟩, none)
        ⟨2020, 1, 1, 0, 0, 0, 0⟩
        (CLICache.save ⟨"AKIA", "SECRET", "TOKEN", ⟨2030, 1, 2, 3, 4, 5, 0⟩, true⟩
          ⟨true, none⟩).fs).providerCalled = false ∧
    (CLICache.Load false (⟨"P", "P", "P", ⟨2031, 1, 1, 0, 0, 0, 0⟩, true⟩, none)
        ⟨2020, 1, 1, 0, 0, 0, 0⟩
        (CLICache.save ⟨"AKIA", "SECRET", "TOKEN", ⟨2030, 1, 2, 3, 4, 5, 0⟩, true⟩
          ⟨true, none⟩).fs).error = none :=
  save_load_roundtrip ⟨"AKIA", "SECRET", "TOKEN", ⟨2030, 1, 2, 3, 4, 5, 0⟩, true⟩
    (⟨"P", "P", "P", ⟨2031, 1, 1, 0, 0, 0, 0⟩, true⟩, none) ⟨2020, 1, 1, 0, 0, 0, 0⟩
    ⟨true, none⟩ rfl (by decide) (by decide) (by decide) (by decide) (by decide) (by decide)
    (by decide) (by decide) (by decide) (by decide)

/-- C10: the program accepts a requested duration iff it lies in the closed
interval from 15 minutes to 12 hours; for every duration outside it the
invocation terminates with the fatal duration message before any credential
retrieval or cache access, and both boundary values are accepted. -/
theorem duration_guard_iff (d : Int) (noCache forceRefresh : Bool)
    (provider : Credentials × Option String) (now : DateTime) (fs : FS) :
    (mainRun d noCache forceRefresh provider now fs =
        Except.ok (acquire noCache forceRefresh provider now fs) ↔
      900000000000 ≤ d ∧ d ≤ 43200000000000) ∧
    (¬(900000000000 ≤ d ∧ d ≤ 43200000000000) →
      mainRun d noCache forceRefresh provider now fs =
        Except.error "duration must be between 15 minutes and 12 hours") ∧
    durationValid 900000000000 = true ∧ durationValid 43200000000000 = true := by
  have heq : (15 * 60 * 1000000000 ≤ d ∧ d ≤ 12 * 3600 * 1000000000) ↔
      (900000000000 ≤ d ∧ d ≤ 43200000000000) := by norm_num
  by_cases hd : 900000000000 ≤ d ∧ d ≤ 43200000000000
  · refine ⟨⟨fun _ => hd, fun _ => ?_⟩, fun hc => absurd hd hc, by decide, by decide⟩
    simp [mainRun, durationValid, heq, hd]
  · refine ⟨⟨fun h => ?_, fun h => absurd h hd⟩, fun _ => ?_, by decide, by decide⟩
    · exfalso
      simp [mainRun, durationValid, heq, hd] at h
    · simp [mainRun, durationValid, heq, hd]

/-- Witness for `duration_guard_iff`: the lower boundary is accepted and a
too-small duration is rejected with the fatal message. -/
theorem duration_guard_iff_witness :
    mainRun 900000000000 true false (⟨"", "", "", zeroTime, true⟩, none) zeroTime ⟨true, none⟩ =
      Except.ok (acquire true false (⟨"", "", "", zeroTime, true⟩, none) zeroTime ⟨true, none⟩) ∧
    mainRun 1 true false (⟨"", "", "", zeroTime, true⟩, none) zeroTime ⟨true, none⟩ =
      Except.error "duration must be between 15 minutes and 12 hours" :=
  ⟨(duration_guard_iff 900000000000 true false (⟨"", "", "", zeroTime, true⟩, none) zeroTime
      ⟨true, none⟩).1.mpr (by decide),
   (duration_guard_iff 1 true false (⟨"", "", "", zeroTime, true⟩, none) zeroTime
      ⟨true, none⟩).2.1 (by decide)⟩

/-- C5: with caching disabled, acquisition calls the provider directly and
performs no cache file read and no cache file write, for either value of
the force-refresh flag: the provider's result is returned and the
filesystem state is untouched. -/
theorem noCache_bypasses_store (forceRefresh : Bool) (provider : Credentials × Option String)
    (now : DateTime) (fs : FS) :
    acquire true forceRefresh provider now fs =
      ⟨provider.1, provider.2, fs, false, true, false⟩ := by
  simp [acquire]

/-- C3: with no forced refresh, an absent, unreadable, or undecodable cache
file makes `Load` behave exactly as the fresh-retrieval path: the provider
is invoked, its credentials are returned, and the only error ever returned
is the provider's own or the save path's — never the read/parse error. -/
theorem load_miss_falls_through (provider : Credentials × Option String) (now : DateTime)
    (fs : FS)
    (h : fs.file = none ∨ ∀ f, fs.file = some f →
      f.readable = false ∨ unmarshalCacheItem f.content.data = none) :
    CLICache.Load false provider now fs = retrieveAndSave provider fs true ∧
    (CLICache.Load false provider now fs).providerCalled = true ∧
    (CLICache.Load false provider now fs).creds = provider.1 ∧
    ((CLICache.Load false provider now fs).error = provider.2 ∨
      (CLICache.Load false provider now fs).error = some "failed to write cache file") := by
  have hget : (CLICache.get fs).2 ≠ none := by
    rcases h with h | h
    · simp [CLICache.get, h]
    · rcases hfile : fs.file with _ | f
      · simp [CLICache.get, hfile]
      · rcases h f hfile with hr | hu
        · simp [CLICache.get, hfile, hr]
        · by_cases hr : f.readable
          · simp [CLICache.get, hfile, hr, hu]
          · simp [CLICache.get, hfile, hr]
  have hload : CLICache.Load false provider now fs = retrieveAndSave provider fs true := by
    simp only [CLICache.Load, Bool.not_false, if_true]
    rcases hg : CLICache.get fs with ⟨creds, err⟩
    have : err ≠ none := by rw [hg] at hget; exact hget
    simp [this]
  refine ⟨hload, ?_, ?_, ?_⟩ <;> rw [hload] <;>
    rcases provider with ⟨pc, _ | e⟩ <;>
    simp [retrieveAndSave, CLICache.save] <;>
    rcases hd : fs.dirExists with _ | _ <;> simp [hd]

/-- Witness for `load_miss_falls_through`: malformed cache JSON falls
through to fresh retrieval. -/
theorem load_miss_falls_through_witness :
    CLICache.Load false (⟨"AK", "SK", "ST", ⟨2031, 1, 1, 0, 0, 0, 0⟩, true⟩, none) zeroTime
        ⟨true, some ⟨true, "not json"⟩⟩ =
      retrieveAndSave (⟨"AK", "SK", "ST", ⟨2031, 1, 1, 0, 0, 0, 0⟩, true⟩, none)
        ⟨true, some ⟨true, "not json"⟩⟩ true ∧
    (CLICache.Load false (⟨"AK", "SK", "ST", ⟨2031, 1, 1, 0, 0, 0, 0⟩, true⟩, none) zeroTime
        ⟨true, some ⟨true, "not json"⟩⟩).providerCalled = true ∧
    (CLICache.Load false (⟨"AK", "SK", "ST", ⟨2031, 1, 1, 0, 0, 0, 0⟩, true⟩, none) zeroTime
        ⟨true, some ⟨true, "not json"⟩⟩).creds =
      ⟨"AK", "SK", "ST", ⟨2031, 1, 1, 0, 0, 0, 0⟩, true⟩ ∧
    ((CLICache.Load false (⟨"AK", "SK", "ST", ⟨2031, 1, 1, 0, 0, 0, 0⟩, true⟩, none) zeroTime
        ⟨true, some ⟨true, "not json"⟩⟩).error = none ∨
      (CLICache.Load false (⟨"AK", "SK", "ST", ⟨2031, 1, 1, 0, 0, 0, 0⟩, true⟩, none) zeroTime
        ⟨true, some ⟨true, "not json"⟩⟩).error = some "failed to write cache file") :=
  load_miss_falls_through (⟨"AK", "SK", "ST", ⟨2031, 1, 1, 0, 0, 0, 0⟩, true⟩, none) zeroTime
    ⟨true, some ⟨true, "not json"⟩⟩ (Or.inr (fun f hf => by
      simp at hf
      rw [← hf]
      exact Or.inr (by decide)))

/-- C6: a cached entry whose parsed expiration equals the current time
exactly is treated as expired: `Load` does not return it and falls through
to fresh upstream retrieval. -/
theorem expiry_boundary_retrieves (provider : Credentials × Option String) (fs : FS)
    (f : CacheFileState) (item : CLICompatCacheItem)
    (hf : fs.file = some f) (hr : f.readable = true)
    (hu : unmarshalCacheItem f.content.data = some item) :
    CLICache.Load false provider item.Credentials.Expiration fs =
      retrieveAndSave provider fs true ∧
    (CLICache.Load false provider item.Credentials.Expiration fs).providerCalled = true := by
  have hexp : credExpired
      ⟨item.Credentials.AccessKeyId, item.Credentials.SecretAccessKey,
        item.Credentials.SessionToken, item.Credentials.Expiration, true⟩
      item.Credentials.Expiration = true := by
    simp [credExpired, DateTime.after]
  have hload : CLICache.Load false provider item.Credentials.Expiration fs =
      retrieveAndSave provider fs true := by
    simp only [CLICache.Load, Bool.not_false, if_true, CLICache.get, hf, hr, hu]
    simp [hexp]
  exact ⟨hload, by
    rw [hload]
    rcases provider with ⟨pc, _ | e⟩ <;> simp [retrieveAndSave]⟩

/-- Witness for `expiry_boundary_retrieves` at a concrete cache file whose
expiration is exactly the current time. -/
theorem expiry_boundary_retrieves_witness :
    CLICache.Load false (⟨"N", "N", "N", ⟨2032, 1, 1, 0, 0, 0, 0⟩, true⟩, none)
        (CLICompatCacheItem.mk ⟨"AK", "SK", "ST", ⟨2030, 1, 2, 3, 4, 5, 0⟩⟩).Credentials.Expiration
        ⟨true, some ⟨true, ⟨marshalCacheItem ⟨⟨"AK", "SK", "ST", ⟨2030, 1, 2, 3, 4, 5, 0⟩⟩⟩⟩⟩⟩ =
      retrieveAndSave (⟨"N", "N", "N", ⟨2032, 1, 1, 0, 0, 0, 0⟩, true⟩, none)
        ⟨true, some ⟨true, ⟨marshalCacheItem ⟨⟨"AK", "SK", "ST", ⟨2030, 1, 2, 3, 4, 5, 0⟩⟩⟩⟩⟩⟩ true ∧
    (CLICache.Load false (⟨"N", "N", "N", ⟨2032, 1, 1, 0, 0, 0, 0⟩, true⟩, none)
        (CLICompatCacheItem.mk ⟨"AK", "SK", "ST", ⟨2030, 1, 2, 3, 4, 5, 0⟩⟩).Credentials.Expiration
        ⟨true, some ⟨true, ⟨marshalCacheItem ⟨⟨"AK", "SK", "ST", ⟨2030, 1, 2, 3, 4, 5, 0⟩⟩⟩⟩⟩⟩).providerCalled
      = true :=
  expiry_boundary_retrieves (⟨"N", "N", "N", ⟨2032, 1, 1, 0, 0, 0, 0⟩, true⟩, none)
    ⟨true, some ⟨true, ⟨marshalCacheItem ⟨⟨"AK", "SK", "ST", ⟨2030, 1, 2, 3, 4, 5, 0⟩⟩⟩⟩⟩⟩
    ⟨true, ⟨marshalCacheItem ⟨⟨"AK", "SK", "ST", ⟨2030, 1, 2, 3, 4, 5, 0⟩⟩⟩⟩⟩
    ⟨⟨"AK", "SK", "ST", ⟨2030, 1, 2, 3, 4, 5, 0⟩⟩⟩ rfl rfl (by decide)

/-- C4 as stated is refuted: with a forced refresh and a successful
provider but an absent cache root directory, `Load` returns without having
written (or rewritten) any cache file. -/
theorem forceRefresh_write_cex :
    (CLICache.Load true (⟨"AK2", "SK2", "ST2", ⟨2031, 1, 1, 0, 0, 0, 0⟩, true⟩, none) zeroTime
        ⟨false, none⟩).providerCalled = true ∧
    (CLICache.Load true (⟨"AK2", "SK2", "ST2", ⟨2031, 1, 1, 0, 0, 0, 0⟩, true⟩, none) zeroTime
        ⟨false, none⟩).fs.file = none := by
  constructor <;> rfl

/-- C4 (amended): a forced refresh never reads the cache and always invokes
the provider; on provider success the save is always attempted, and the
cache file is rewritten with the fresh credentials whenever the write
succeeds (in particular whenever the cache directory exists). -/
theorem forceRefresh_always_retrieves (provider : Credentials × Option String)
    (now : DateTime) (fs : FS) :
    (CLICache.Load true provider now fs).getCalled = false ∧
    (CLICache.Load true provider now fs).providerCalled = true ∧
    (provider.2 = none →
      (CLICache.Load true provider now fs).saveCalled = true ∧
      (fs.dirExists = true →
        (CLICache.Load true provider now fs).fs.file =
          some ⟨true, ⟨marshalCacheItem (itemOfCreds provider.1)⟩⟩)) := by
  rcases provider with ⟨pc, _ | e⟩ <;>
    simp [CLICache.Load, retrieveAndSave, CLICache.save] <;>
    rcases hd : fs.dirExists with _ | _ <;> simp [hd]

/-- Witness for `forceRefresh_always_retrieves`: a valid present entry is
ignored and overwritten with the provider's fresh credentials. -/
theorem forceRefresh_always_retrieves_witness :
    (CLICache.Load true (⟨"AK2", "SK2", "ST2", ⟨2031, 1, 1, 0, 0, 0, 0⟩, true⟩, none) zeroTime
        ⟨true, some ⟨true, "old"⟩⟩).getCalled = false ∧
    (CLICache.Load true (⟨"AK2", "SK2", "ST2", ⟨2031, 1, 1, 0, 0, 0, 0⟩, true⟩, none) zeroTime
        ⟨true, some ⟨true, "old"⟩⟩).providerCalled = true ∧
    (CLICache.Load true (⟨"AK2", "SK2", "ST2", ⟨2031, 1, 1, 0, 0, 0, 0⟩, true⟩, none) zeroTime
        ⟨true, some ⟨true, "old"⟩⟩).saveCalled = true ∧
    (CLICache.Load true (⟨"AK2", "SK2", "ST2", ⟨2031, 1, 1, 0, 0, 0, 0⟩, true⟩, none) zeroTime
        ⟨true, some ⟨true, "old"⟩⟩).fs.file =
      some ⟨true, ⟨marshalCacheItem
        (itemOfCreds ⟨"AK2", "SK2", "ST2", ⟨2031, 1, 1, 0, 0, 0, 0⟩, true⟩)⟩⟩ := by
  have h := forceRefresh_always_retrieves
    (⟨"AK2", "SK2", "ST2", ⟨2031, 1, 1, 0, 0, 0, 0⟩, true⟩, none) zeroTime
    ⟨true, some ⟨true, "old"⟩⟩
  exact ⟨h.1, h.2.1, (h.2.2 rfl).1, (h.2.2 rfl).2 rfl⟩

/-- C7: when the provider succeeds but persisting fails (the cache
directory is absent, so the file write fails), `Load` surfaces the
persistence error while still returning the freshly obtained credentials. -/
theorem save_error_surfaced (forceRefresh : Bool) (provider : Credentials × Option String)
    (now : DateTime) (fs : FS)
    (hok : provider.2 = none) (hdir : fs.dirExists = false)
    (hmiss : forceRefresh = true ∨ fs.file = none) :
    (CLICache.Load forceRefresh provider now fs).creds = provider.1 ∧
    (CLICache.Load forceRefresh provider now fs).error = some "failed to write cache file" ∧
    (CLICache.Load forceRefresh provider now fs).providerCalled = true ∧
    (CLICache.Load forceRefresh provider now fs).saveCalled = true := by
  rcases provider with ⟨pc, pe⟩
  simp only at hok
  subst hok
  rcases hmiss with hm | hm
  · subst hm
    simp [CLICache.Load, retrieveAndSave, CLICache.save, hdir]
  · cases forceRefresh <;>
      simp [CLICache.Load, CLICache.get, hm, retrieveAndSave, CLICache.save, hdir]

/-- Witness for `save_error_surfaced` at a concrete absent-directory state. -/
theorem save_error_surfaced_witness :
    (CLICache.Load true (⟨"AK", "SK", "ST", ⟨2031, 1, 1, 0, 0, 0, 0⟩, true⟩, none) zeroTime
        ⟨false, none⟩).creds = ⟨"AK", "SK", "ST", ⟨2031, 1, 1, 0, 0, 0, 0⟩, true⟩ ∧
    (CLICache.Load true (⟨"AK", "SK", "ST", ⟨2031, 1, 1, 0, 0, 0, 0⟩, true⟩, none) zeroTime
        ⟨false, none⟩).error = some "failed to write cache file" ∧
    (CLICache.Load true (⟨"AK", "SK", "ST", ⟨2031, 1, 1, 0, 0, 0, 0⟩, true⟩, none) zeroTime
        ⟨false, none⟩).providerCalled = true ∧
    (CLICache.Load true (⟨"AK", "SK", "ST", ⟨2031, 1, 1, 0, 0, 0, 0⟩, true⟩, none) zeroTime
        ⟨false, none⟩).saveCalled = true :=
  save_error_surfaced true (⟨"AK", "SK", "ST", ⟨2031, 1, 1, 0, 0, 0, 0⟩, true⟩, none) zeroTime
    ⟨false, none⟩ rfl rfl (Or.inl rfl)

/-- C9: `save` calls `MkdirAll` exactly when the cache root directory (the
parent of the cache file) already exists — where it is a no-op — and never
creates the root from nothing; the file write is always attempted, so with
the root absent the save fails and leaves the filesystem unchanged, while
with the root present the file is (re)written. -/
theorem save_directory_discipline (creds : Credentials) (fs : FS) :
    (CLICache.save creds fs).mkdirCalled = fs.dirExists ∧
    (CLICache.save creds fs).fs.dirExists = fs.dirExists ∧
    (CLICache.save creds fs).writeCalled = true ∧
    (fs.dirExists = false →
      (CLICache.save creds fs).error = some "failed to write cache file" ∧
      (CLICache.save creds fs).fs = fs) ∧
    (fs.dirExists = true →
      (CLICache.save creds fs).error = none ∧
      (CLICache.save creds fs).fs.file =
        some ⟨true, ⟨marshalCacheItem (itemOfCreds creds)⟩⟩) := by
  rcases hd : fs.dirExists with _ | _ <;> simp [CLICache.save, hd]

/-- Witness for `save_directory_discipline`: saving with the cache root
absent fails without changing anything. -/
theorem save_directory_discipline_witness :
    (CLICache.save ⟨"AK", "SK", "ST", ⟨2030, 1, 2, 3, 4, 5, 0⟩, true⟩ ⟨false, none⟩).mkdirCalled
      = false ∧
    (CLICache.save ⟨"AK", "SK", "ST", ⟨2030, 1, 2, 3, 4, 5, 0⟩, true⟩ ⟨false, none⟩).error
      = some "failed to write cache file" ∧
    (CLICache.save ⟨"AK", "SK", "ST", ⟨2030, 1, 2, 3, 4, 5, 0⟩, true⟩ ⟨false, none⟩).fs
      = ⟨false, none⟩ := by
  have h := save_directory_discipline ⟨"AK", "SK", "ST", ⟨2030, 1, 2, 3, 4, 5, 0⟩, true⟩
    ⟨false, none⟩
  exact ⟨h.1, (h.2.2.2.1 rfl).1, (h.2.2.2.1 rfl).2⟩

set_option maxRecDepth 10000 in
/-- C1 counterexample: for an `ExternalId` containing a quote followed by a
colon, the code's derived cache key differs from the SHA-1 digest of the
spec's rewritten document, because the textual replacement also fires
inside the escaped string value. -/
theorem cache_key_cex :
    cacheKeyString ⟨0, "a\":b", "", ""⟩ ≠ sha1Hex (specPrettyJson ⟨0, "a\":b", "", ""⟩) := by
  decide

set_option maxRecDepth 10000 in
/-- C1 (amended): for parameters whose string fields contain no raw double
quote, do not start with a colon, and do not end with a comma, the derived
cache key is the lowercase hex SHA-1 digest of the compact JSON document
with exactly the non-zero/non-empty fields in declaration order and a
single space inserted after each key colon and each separating comma; in
particular the golden vector with `RoleArn`
`arn:aws:iam::123456789012:role/test` and `DurationSeconds` 3600 hashes the
exact expected string, to the pinned digest
`2406977efcd34aedebf28077bc5185203cfc6da2`. -/
theorem cache_key_spec_hash (v : computableCacheKey)
    (hE : '"' ∉ v.ExternalId.data ∧ v.ExternalId.data.head? ≠ some ':' ∧
      v.ExternalId.data.getLast? ≠ some ',')
    (hR : '"' ∉ v.RoleArn.data ∧ v.RoleArn.data.head? ≠ some ':' ∧
      v.RoleArn.data.getLast? ≠ some ',')
    (hS : '"' ∉ v.SerialNumber.data ∧ v.SerialNumber.data.head? ≠ some ':' ∧
      v.SerialNumber.data.getLast? ≠ some ',') :
    cacheKeyString v = sha1Hex (specPrettyJson v) ∧
    cacheKeyString ⟨3600, "", "arn:aws:iam::123456789012:role/test", ""⟩ =
      sha1Hex "\x7b\"DurationSeconds\": 3600, \"RoleArn\": \"arn:aws:iam::123456789012:role/test\"\x7d" ∧
    cacheKeyString ⟨3600, "", "arn:aws:iam::123456789012:role/test", ""⟩ =
      "2406977efcd34aedebf28077bc5185203cfc6da2" := by
  refine ⟨cacheKeyString_eq_spec v hE hR hS, ?_, ?_⟩
  · rw [cacheKeyString_eq_spec ⟨3600, "", "arn:aws:iam::123456789012:role/test", ""⟩
      (by decide) (by decide) (by decide)]
    exact congrArg sha1Hex (by decide)
  · decide

set_option maxRecDepth 10000 in
/-- Witness for `cache_key_spec_hash` at the golden vector. -/
theorem cache_key_spec_hash_witness :
    cacheKeyString ⟨3600, "", "arn:aws:iam::123456789012:role/test", ""⟩ =
      sha1Hex (specPrettyJson ⟨3600, "", "arn:aws:iam::123456789012:role/test", ""⟩) ∧
    cacheKeyString ⟨3600, "", "arn:aws:iam::123456789012:role/test", ""⟩ =
      "2406977efcd34aedebf28077bc5185203cfc6da2" :=
  ⟨(cache_key_spec_hash ⟨3600, "", "arn:aws:iam::123456789012:role/test", ""⟩
      (by decide) (by decide) (by decide)).1,
   (cache_key_spec_hash ⟨3600, "", "arn:aws:iam::123456789012:role/test", ""⟩
      (by decide) (by decide) (by decide)).2.2⟩

end AwsCredProc
